import Mathlib

/-!
Verification development for the dyad local "Pro features" core:
smart context selection (smart_context_processor.ts, dependency_analyzer.ts,
semantic_analyzer.ts), turbo edits (turbo_edits_processor.ts,
edit_templates.ts) and edit validation (edit_validator.ts).

Text is modelled as `List Char` (JS strings).  File-system reads and
external process calls (fs.readFile, node --check, python, JSON.parse)
are modelled as explicit oracle parameters, since the TypeScript code
performs them through I/O; everything else is translated directly from
the source.
-/

set_option maxHeartbeats 1000000

abbrev Str : Type := List Char

/-- Literal helper: the character list of a string literal. -/
def str (s : String) : Str := s.data

/-- JS String.prototype.toLowerCase (ASCII-level model). -/
def strLower (s : Str) : Str := s.map Char.toLower

/-- Whether the first list is a leading segment of the second
(model of JS String.prototype.startsWith at one position). -/
def leadSeg : Str → Str → Bool
  | [], _ => true
  | _ :: _, [] => false
  | n :: ns, h :: hs => n = h && leadSeg ns hs

/-- Some suffix of the haystack satisfies the matcher. -/
def anyPos (f : Str → Bool) : Str → Bool
  | [] => f []
  | c :: rest => f (c :: rest) || anyPos f rest

/-- JS String.prototype.includes: contiguous-substring containment. -/
def hasSub (hay needle : Str) : Bool := anyPos (leadSeg needle) hay

/-- Split a character list on a separator character
(model of JS String.prototype.split with a one-character separator). -/
def splitOnChar (sep : Char) : Str → List Str
  | [] => [[]]
  | c :: rest =>
    let r := splitOnChar sep rest
    if c = sep then [] :: r
    else
      match r with
      | [] => [[c]]
      | h :: t => (c :: h) :: t

/-- JS whitespace test (the characters matched by the regex class backslash-s,
ASCII fragment). -/
def isSpaceChar (c : Char) : Bool :=
  c = ' ' || c = '\t' || c = '\n' || c = '\r' ||
  c = Char.ofNat 11 || c = Char.ofNat 12

/-- JS word-character test (the regex class backslash-w). -/
def isWordChar (c : Char) : Bool :=
  ('a' ≤ c && c ≤ 'z') || ('A' ≤ c && c ≤ 'Z') || ('0' ≤ c && c ≤ '9') || c = '_'

/-- JS String.prototype.trim. -/
def strTrim (s : Str) : Str :=
  ((s.dropWhile isSpaceChar).reverse.dropWhile isSpaceChar).reverse

/-- Model of node path.basename: the final path component
(the segment after the last slash). -/
def basename (p : Str) : Str :=
  (p.reverse.takeWhile (fun c => c ≠ '/')).reverse

/-- Model of node path.dirname: everything before the last slash
(or "." when there is no slash). -/
def dirname (p : Str) : Str :=
  if p.contains '/' then (p.reverse.dropWhile (fun c => c ≠ '/')).reverse.dropLast
  else str "."

/-- Extension of a basename: the suffix from the last dot, provided that dot
is not the leading character (model of node path.extname). -/
def extnameOfBase (b : Str) : Str :=
  let tailPart := b.reverse.takeWhile (fun c => c ≠ '.')
  if tailPart.length = b.length then []
  else if tailPart.length + 1 = b.length then []
  else '.' :: tailPart.reverse

/-- Model of node path.extname. -/
def extname (p : Str) : Str := extnameOfBase (basename p)

/-- Join a list of path components with slashes. -/
def joinComponents : List Str → Str
  | [] => []
  | [c] => c
  | c :: rest => c ++ '/' :: joinComponents rest

/-- Normalize path components, resolving "." and ".." segments
(the normalization node path.resolve and path.join perform). -/
def normalizeComponents (comps : List Str) : List Str :=
  comps.foldl
    (fun acc comp =>
      if comp = [] ∨ comp = str "." then acc
      else if comp = str ".." then acc.dropLast
      else acc ++ [comp])
    []

/-- Model of node path.join for two segments. -/
def joinPath (a b : Str) : Str :=
  joinComponents (normalizeComponents (splitOnChar '/' a ++ splitOnChar '/' b))

/-- Model of node path.resolve of a relative path against a directory. -/
def resolvePath (dir rel : Str) : Str := joinPath dir rel

/-- Model of node path.relative: strip the common component proper-part of
base and target, then climb with ".." for what remains of base. -/
def relativeComponents : List Str → List Str → List Str
  | b :: bs, t :: ts =>
    if b = t then relativeComponents bs ts
    else (b :: bs).map (fun _ => str "..") ++ t :: ts
  | [], ts => ts
  | bs, [] => bs.map (fun _ => str "..")

/-- Model of node path.relative. -/
def relativePath (base target : Str) : Str :=
  joinComponents
    (relativeComponents (normalizeComponents (splitOnChar '/' base))
      (normalizeComponents (splitOnChar '/' target)))

/-! ## smart_context_processor.ts -/

/-- Result record of the smart-context optimization
(interface ContextOptimization). -/
structure ContextOptimization where
  selectedFiles : List Str
  totalTokens : Nat
  relevanceRatio : ℚ
  processingTime : Nat
deriving DecidableEq

/-- The optimization core before processingTime is attached
(Omit of ContextOptimization over processingTime). -/
structure ContextOptimizationCore where
  selectedFiles : List Str
  totalTokens : Nat
  relevanceRatio : ℚ
deriving DecidableEq

/-- One entry of the per-file token/relevance estimation
in optimizeContextForTokens. -/
structure FileTokenEstimate where
  file : Str
  tokens : Nat
  relevance : ℚ
deriving DecidableEq

/-- Relevance-per-token ratio used by the sort comparator
(relevance over max(tokens, 1)). -/
def estimateRatio (e : FileTokenEstimate) : ℚ :=
  e.relevance / (max e.tokens 1 : ℕ)

/-- Sort predicate: descending by relevance/token ratio (the comparator
returns ratioB - ratioA, so larger ratios come first). -/
def ratioGe (a b : FileTokenEstimate) : Bool :=
  decide (estimateRatio b ≤ estimateRatio a)

/-- Accumulator of the greedy token-budget selection loop. -/
structure PickState where
  selectedFiles : List Str
  totalTokens : Nat
  totalRelevance : ℚ
  maxPossibleRelevance : ℚ

/-- One iteration of the greedy selection loop in optimizeContextForTokens:
always accumulate maxPossibleRelevance, and admit the file only while the
running token sum stays within the budget. -/
def pickStep (maxTokens : Nat) (s : PickState) (e : FileTokenEstimate) : PickState :=
  let s1 : PickState := { s with maxPossibleRelevance := s.maxPossibleRelevance + e.relevance }
  if s1.totalTokens + e.tokens ≤ maxTokens then
    { s1 with
      selectedFiles := s1.selectedFiles ++ [e.file],
      totalTokens := s1.totalTokens + e.tokens,
      totalRelevance := s1.totalRelevance + e.relevance }
  else s1

/-- SmartContextProcessor.optimizeContextForTokens.  The per-file token and
relevance estimators (estimateFileTokens, calculateFileRelevance) read the
file system, so they are passed as oracles est and rel. -/
def optimizeContextForTokens (est : Str → Nat) (rel : Str → ℚ)
    (candidateFiles : List Str) (maxTokens : Nat) : ContextOptimizationCore :=
  if candidateFiles.length = 0 then
    { selectedFiles := [], totalTokens := 0, relevanceRatio := 0 }
  else
    let fileTokenEstimates := candidateFiles.map
      (fun f => { file := f, tokens := est f, relevance := rel f : FileTokenEstimate })
    let sorted := fileTokenEstimates.mergeSort ratioGe
    let ps := sorted.foldl (pickStep maxTokens)
      { selectedFiles := [], totalTokens := 0, totalRelevance := 0, maxPossibleRelevance := 0 }
    { selectedFiles := ps.selectedFiles,
      totalTokens := ps.totalTokens,
      relevanceRatio :=
        if 0 < ps.maxPossibleRelevance then ps.totalRelevance / ps.maxPossibleRelevance else 0 }

/-- The basename test of the conservative fallback: contains "index", "main"
or "app", or equals "package.json" (lower-cased). -/
def isMainFile (file : Str) : Bool :=
  let b := strLower (basename file)
  hasSub b (str "index") || hasSub b (str "main") || hasSub b (str "app") ||
    decide (b = str "package.json")

/-- SmartContextProcessor.getConservativeFallback. -/
def getConservativeFallback (availableFiles : List Str) (processingTime : Nat) :
    ContextOptimization :=
  let mainFiles := (availableFiles.filter isMainFile).take 5
  { selectedFiles := mainFiles,
    totalTokens := mainFiles.length * 500,
    relevanceRatio := 1 / 2,
    processingTime := processingTime }

/-- SmartContextProcessor.analyzeCodebaseForContext.  The body of the try
block (graph build, semantic matching, related-file identification and token
optimization, all involving I/O) is abstracted as the analysis outcome; the
catch branch returns the conservative fallback and the elapsed time is a
parameter. -/
def analyzeCodebaseForContext (analysis : Except Str ContextOptimizationCore)
    (availableFiles : List Str) (elapsed : Nat) : ContextOptimization :=
  match analysis with
  | Except.ok o =>
    { selectedFiles := o.selectedFiles, totalTokens := o.totalTokens,
      relevanceRatio := o.relevanceRatio, processingTime := elapsed }
  | Except.error _ => getConservativeFallback availableFiles elapsed

/-! ## dependency_analyzer.ts -/

/-- interface FileNode (lastModified modelled as a timestamp number). -/
structure FileNode where
  path : Str
  imports : List Str
  exports : List Str
  size : Nat
  lastModified : Nat
deriving DecidableEq

/-- interface DependencyGraph: nodes, edges and weights maps are modelled as
association lists keyed by file path, in insertion order. -/
structure DependencyGraph where
  nodes : List (Str × FileNode)
  edges : List (Str × List Str)
  weights : List (Str × ℚ)

/-- Map.has on an association list. -/
def hasKey (nodes : List (Str × FileNode)) (k : Str) : Bool :=
  nodes.any (fun e => decide (e.1 = k))

/-- Map.get on the edges map, defaulting to [] (graph.edges.get(x) || []). -/
def edgesGet (edges : List (Str × List Str)) (k : Str) : List Str :=
  match edges.find? (fun e => decide (e.1 = k)) with
  | some e => e.2
  | none => []

/-- The fixed extension list tried by resolveImportPath. -/
def resolveExtensions : List Str :=
  [str ".ts", str ".tsx", str ".js", str ".jsx", str ".py",
   str ".java", str ".cpp", str ".c", str ".cs"]

/-- dependency_analyzer.ts resolveImportPath: resolve a relative import
against the importing file, trying the extension list and then index files,
succeeding only when the result is a known node key; absolute/external
imports yield null. -/
def resolveImportPath (importPath currentFile basePath : Str)
    (nodes : List (Str × FileNode)) : Option Str :=
  if leadSeg (str ".") importPath then
    let currentDir := dirname (joinPath basePath currentFile)
    let resolvedPath := resolvePath currentDir importPath
    let rel := relativePath basePath resolvedPath
    match resolveExtensions.find? (fun ext => hasKey nodes (rel ++ ext)) with
    | some ext => some (rel ++ ext)
    | none =>
      match resolveExtensions.find?
          (fun ext => hasKey nodes (joinPath rel (str "index" ++ ext))) with
      | some ext => some (joinPath rel (str "index" ++ ext))
      | none => none
  else none

/-- dependency_analyzer.ts buildGraphEdges: for every node, keep exactly the
imports that resolve to an existing node key. -/
def buildGraphEdges (nodes : List (Str × FileNode)) (basePath : Str) :
    List (Str × List Str) :=
  nodes.map (fun entry =>
    (entry.1, entry.2.imports.filterMap (fun importPath =>
      match resolveImportPath importPath entry.1 basePath nodes with
      | some resolvedPath =>
        if hasKey nodes resolvedPath then some resolvedPath else none
      | none => none)))

/-- Loop of the depth-bounded BFS shared by findTransitiveDependencies
(dependency_analyzer.ts) and getDependenciesAtDepth
(smart_context_processor.ts).  The while loop is modelled with fuel; every
iteration pops one queue entry, so any fuel at least 2 plus the total edge
count runs the loop to completion. -/
def bfsLoop (edges : List (Str × List Str)) (maxDepth : Int) :
    Nat → List (Str × Nat) → List Str → List Str → List Str
  | 0, _, _, dependencies => dependencies
  | _ + 1, [], _, dependencies => dependencies
  | fuel + 1, (currentFile, depth) :: rest, visited, dependencies =>
    if currentFile ∈ visited ∨ maxDepth < (depth : Int) then
      bfsLoop edges maxDepth fuel rest visited dependencies
    else
      let visited1 := currentFile :: visited
      let dependencies1 :=
        if 0 < depth then dependencies ++ [currentFile] else dependencies
      let newItems := (edgesGet edges currentFile).filterMap
        (fun dep => if dep ∈ visited1 then none else some (dep, depth + 1))
      bfsLoop edges maxDepth fuel (rest ++ newItems) visited1 dependencies1

/-- Sufficient fuel for bfsLoop: one initial entry plus at most one enqueue
per edge target. -/
def bfsFuel (edges : List (Str × List Str)) : Nat :=
  2 + (edges.map (fun e => e.2.length)).sum

/-- dependency_analyzer.ts findTransitiveDependencies: depth-bounded BFS from
startFile, emitting only files reached at depth greater than 0. -/
def findTransitiveDependencies (graph : DependencyGraph) (startFile : Str)
    (maxDepth : Int) : List Str :=
  bfsLoop graph.edges maxDepth (bfsFuel graph.edges) [(startFile, 0)] [] []

/-- SmartContextProcessor.getDependenciesAtDepth: the same depth-bounded BFS
(duplicated in smart_context_processor.ts). -/
def getDependenciesAtDepth (file : Str) (graph : DependencyGraph)
    (maxDepth : Int) : List Str :=
  bfsLoop graph.edges maxDepth (bfsFuel graph.edges) [(file, 0)] [] []

/-- State threaded through the cycle-detection DFS: the visited set, the
recursion stack and the accumulated cycles. -/
structure DfsState where
  visited : List Str
  recStack : List Str
  cycles : List (List Str)

/-- JS Array.prototype.indexOf restricted to present elements: index of the
first occurrence. -/
def idxOf (x : Str) : List Str → Nat
  | [] => 0
  | y :: l => if y = x then 0 else idxOf x l + 1

/-- dependency_analyzer.ts findCircularDependencies, inner dfs.  The
recursion is modelled with fuel; the recursion depth is bounded by the
number of distinct visited nodes, so dfsFuel below never runs out.  When the
node is on the recursion stack, the cycle path.slice(indexOf(node)) ++ [node]
is recorded provided indexOf does not yield -1. -/
def dfsStep (edges : List (Str × List Str)) :
    Nat → Str → List Str → DfsState → DfsState
  | 0, _, _, s => s
  | fuel + 1, node, path, s =>
    if node ∈ s.recStack then
      if node ∈ path then
        { s with cycles := s.cycles ++ [path.drop (idxOf node path) ++ [node]] }
      else s
    else if node ∈ s.visited then s
    else
      let s1 : DfsState :=
        { s with visited := node :: s.visited, recStack := node :: s.recStack }
      let s2 := (edgesGet edges node).foldl
        (fun acc dep => dfsStep edges fuel dep (path ++ [node]) acc) s1
      { s2 with recStack := s2.recStack.erase node }

/-- Every string the DFS can ever visit: node keys and edge targets. -/
def dfsUniverse (g : DependencyGraph) : List Str :=
  g.nodes.map Prod.fst ++ (g.edges.map Prod.snd).flatten

/-- Fuel that the DFS recursion depth can never exhaust. -/
def dfsFuel (g : DependencyGraph) : Nat := (dfsUniverse g).length + 3

/-- dependency_analyzer.ts findCircularDependencies: run the dfs from every
not-yet-visited node key and collect the recorded cycles. -/
def findCircularDependencies (g : DependencyGraph) : List (List Str) :=
  ((g.nodes.map Prod.fst).foldl
    (fun s node => if node ∈ s.visited then s else dfsStep g.edges (dfsFuel g) node [] s)
    { visited := [], recStack := [], cycles := [] }).cycles

/-- The edge relation of a dependency graph edges map. -/
def edgeRel (edges : List (Str × List Str)) (a b : Str) : Prop :=
  b ∈ edgesGet edges a

/-- A directed cycle in the edges map: a chain of length at least 2 whose
first and last vertices coincide. -/
def graphHasCycle (edges : List (Str × List Str)) : Prop :=
  ∃ c : List Str, 2 ≤ c.length ∧ c.head? = c.getLast? ∧ List.Chain' (edgeRel edges) c

/-! ## semantic_analyzer.ts -/

/-- The matchType priority tag of a semantic match. -/
inductive MatchType
  | direct
  | semantic
  | structural
deriving DecidableEq

/-- interface EntityExtraction. -/
structure EntityExtraction where
  entities : List Str
  keywords : List Str
  fileTypes : List Str
  concepts : List Str

/-- interface SemanticMatch. -/
structure SemanticMatch where
  filePath : Str
  relevanceScore : ℚ
  matchedEntities : List Str
  contextImportance : ℚ
  matchType : MatchType

/-- Split into maximal non-whitespace runs (model of JS split on the regex
backslash-s-plus; the empty-string artifacts JS can produce at the ends are
always removed by the length-greater-than-3 filters applied to the result,
so they are dropped here). -/
def splitWs (s : Str) : List Str :=
  (s.foldr
    (fun c acc =>
      if isSpaceChar c then [] :: acc
      else
        match acc with
        | [] => [[c]]
        | h :: t => (c :: h) :: t)
    []).filter (fun g => g ≠ [])

/-- semantic_analyzer.ts calculateTextSimilarity: Jaccard similarity of the
sets of words longer than 3 characters. -/
def calculateTextSimilarity (text1 text2 : Str) : ℚ :=
  if text1 = [] ∨ text2 = [] then 0
  else
    let words1 := ((splitWs text1).filter (fun w => 3 < w.length)).dedup
    let words2 := ((splitWs text2).filter (fun w => 3 < w.length)).dedup
    if words1.length = 0 ∨ words2.length = 0 then 0
    else
      let intersection := (words1.filter (fun w => decide (w ∈ words2))).dedup
      let unionWords := (words1 ++ words2).dedup
      (intersection.length : ℚ) / (unionWords.length : ℚ)

/-- The fixed table of path-substring bonuses in calculateStructuralScore. -/
def structuralPatternTable : List (Str × ℚ) :=
  [(str "index", 3/2), (str "main", 3/2), (str "app", 6/5),
   (str "component", 1), (str "widget", 1),
   (str "service", 1), (str "util", 4/5), (str "helper", 4/5),
   (str "config", 4/5), (str "setting", 4/5),
   (str "test", 1/2), (str "spec", 1/2), (str "mock", 3/10)]

/-- The conventionally-important directories of calculateStructuralScore. -/
def importantDirs : List Str :=
  [str "src", str "components", str "pages", str "services", str "utils", str "lib"]

/-- semantic_analyzer.ts calculateStructuralScore. -/
def calculateStructuralScore (filePath : Str) : ℚ :=
  let fileName := basename filePath
  let dirName := dirname filePath
  let score := structuralPatternTable.foldl
    (fun score entry =>
      if hasSub (strLower fileName) entry.1 || hasSub (strLower dirName) entry.1 then
        score + entry.2
      else score)
    0
  importantDirs.foldl
    (fun score dir => if hasSub dirName dir then score + 3/10 else score)
    score

/-- Importance table by file extension in calculateContextImportance. -/
def fileTypeImportanceTable : List (Str × ℚ) :=
  [(str "ts", 1), (str "tsx", 1), (str "js", 9/10), (str "jsx", 9/10),
   (str "py", 9/10), (str "java", 4/5), (str "cpp", 4/5),
   (str "json", 7/10), (str "md", 2/5)]

/-- Association-list lookup with a default. -/
def lookupQ (tbl : List (Str × ℚ)) (k : Str) (d : ℚ) : ℚ :=
  match tbl.find? (fun e => decide (e.1 = k)) with
  | some e => e.2
  | none => d

/-- semantic_analyzer.ts calculateContextImportance. -/
def calculateContextImportance (filePath : Str) : ℚ :=
  let fileName := basename filePath
  let fileExtension := (extname filePath).drop 1
  let importance : ℚ := (1/2) * lookupQ fileTypeImportanceTable fileExtension (1/2)
  let importance :=
    if hasSub (strLower fileName) (str "index") then importance + 3/10 else importance
  let importance :=
    if hasSub (strLower fileName) (str "main") then importance + 3/10 else importance
  let importance :=
    if hasSub (strLower fileName) (str "app") then importance + 1/5 else importance
  min importance 1

/-- Accumulator of the additive relevance signals in analyzeFileRelevance. -/
structure RelevanceAcc where
  relevanceScore : ℚ
  matchedEntities : List Str
  matchType : MatchType

/-- Signal group 1 of analyzeFileRelevance: one entity against file name
(weight 2.0, tag direct) and content (weight 1.0, tag semantic). -/
def entityStep (normalizedFileName normalizedContent : Str)
    (acc : RelevanceAcc) (entity : Str) : RelevanceAcc :=
  let normalizedEntity := strLower entity
  let acc1 :=
    if hasSub normalizedFileName normalizedEntity then
      { acc with
        relevanceScore := acc.relevanceScore + 2,
        matchedEntities := acc.matchedEntities ++ [entity],
        matchType := MatchType.direct }
    else acc
  if hasSub normalizedContent normalizedEntity then
    { acc1 with
      relevanceScore := acc1.relevanceScore + 1,
      matchedEntities := acc1.matchedEntities ++ [entity],
      matchType :=
        if acc1.matchType = MatchType.structural then MatchType.semantic
        else acc1.matchType }
  else acc1

/-- Signal group 3 of analyzeFileRelevance: one concept against file name
(1.5) and content (0.8). -/
def conceptStep (normalizedFileName normalizedContent : Str)
    (acc : RelevanceAcc) (concept : Str) : RelevanceAcc :=
  let acc1 :=
    if hasSub normalizedFileName concept then
      { acc with
        relevanceScore := acc.relevanceScore + 3/2,
        matchedEntities := acc.matchedEntities ++ [concept] }
    else acc
  if hasSub normalizedContent concept then
    { acc1 with
      relevanceScore := acc1.relevanceScore + 4/5,
      matchedEntities := acc1.matchedEntities ++ [concept] }
  else acc1

/-- Signal groups 1 to 3 of analyzeFileRelevance: the entity loop, the
file-type loop (score only) and the concept loop, on the initial
accumulator (score 0, no matches, tag structural). -/
def relevanceAcc3 (filePath : Str) (extraction : EntityExtraction)
    (content : Str) : RelevanceAcc :=
  let fileName := basename filePath
  let fileExtension := (extname filePath).drop 1
  let normalizedContent := strLower content
  let normalizedFileName := strLower fileName
  let acc0 : RelevanceAcc :=
    { relevanceScore := 0, matchedEntities := [], matchType := MatchType.structural }
  let acc1 := extraction.entities.foldl (entityStep normalizedFileName normalizedContent) acc0
  let score2 := extraction.fileTypes.foldl
    (fun score fileType =>
      if decide (fileExtension = fileType) || hasSub fileName fileType then score + 1/2
      else score)
    acc1.relevanceScore
  extraction.concepts.foldl (conceptStep normalizedFileName normalizedContent)
    { acc1 with relevanceScore := score2 }

/-- Signal group 4 of analyzeFileRelevance: the keyword loop over the score
accumulated by groups 1 to 3. -/
def relevanceScore4 (filePath : Str) (extraction : EntityExtraction)
    (content : Str) : ℚ :=
  let normalizedContent := strLower content
  let normalizedFileName := strLower (basename filePath)
  extraction.keywords.foldl
    (fun score keyword =>
      let score := if hasSub normalizedFileName keyword then score + 3/10 else score
      if hasSub normalizedContent keyword then score + 1/5 else score)
    (relevanceAcc3 filePath extraction content).relevanceScore

/-- Steps 5 to 7 of analyzeFileRelevance: structural bonus, similarity
bonus and the size penalty, before the cap. -/
def relevanceRawScore (filePath : Str) (extraction : EntityExtraction)
    (originalPrompt : Str) (content : Str) : ℚ :=
  let score5 := relevanceScore4 filePath extraction content + calculateStructuralScore filePath
  let score6 :=
    if content ≠ [] then
      score5 + calculateTextSimilarity (strLower originalPrompt) (strLower content) * (1/2)
    else score5
  if content ≠ [] then
    let sizeKB : ℚ := (content.length : ℚ) / 1024
    if 100 < sizeKB then score6 * (4/5)
    else if sizeKB < 1/2 then score6 * (9/10)
    else score6
  else score6

/-- semantic_analyzer.ts analyzeFileRelevance.  The file content read by
fs.readFile is a parameter; a failed read leaves it empty, exactly as in the
source. -/
def analyzeFileRelevance (filePath : Str) (extraction : EntityExtraction)
    (originalPrompt : Str) (content : Str) : SemanticMatch :=
  { filePath := filePath,
    relevanceScore := min (relevanceRawScore filePath extraction originalPrompt content) 10,
    matchedEntities := (relevanceAcc3 filePath extraction content).matchedEntities.dedup,
    contextImportance := calculateContextImportance filePath,
    matchType := (relevanceAcc3 filePath extraction content).matchType }

/-! ## turbo_edits_processor.ts and edit_templates.ts -/

/-- enum EditComplexity (ordinal: SIMPLE < MODERATE < COMPLEX < MULTI_FILE). -/
inductive EditComplexity
  | SIMPLE
  | MODERATE
  | COMPLEX
  | MULTI_FILE
deriving DecidableEq

/-- Ordinal rank of a complexity tier. -/
def tierRank : EditComplexity → Nat
  | EditComplexity.SIMPLE => 0
  | EditComplexity.MODERATE => 1
  | EditComplexity.COMPLEX => 2
  | EditComplexity.MULTI_FILE => 3

/-- The string value of a complexity tier (the TS enum values). -/
def complexityStr : EditComplexity → Str
  | EditComplexity.SIMPLE => str "simple"
  | EditComplexity.MODERATE => str "moderate"
  | EditComplexity.COMPLEX => str "complex"
  | EditComplexity.MULTI_FILE => str "multi_file"

/-- The user model-strategy preference (config.modelStrategy). -/
inductive ModelStrategy
  | fast
  | balanced
  | quality
deriving DecidableEq

/-- The model tier selected for an edit. -/
inductive ModelSelection
  | fast
  | balanced
  | powerful
deriving DecidableEq

/-- String value of a model selection. -/
def modelSelectionStr : ModelSelection → Str
  | ModelSelection.fast => str "fast"
  | ModelSelection.balanced => str "balanced"
  | ModelSelection.powerful => str "powerful"

/-- Validation strictness level. -/
inductive ValidationLevel
  | basic
  | enhanced
  | strict
deriving DecidableEq

/-- String value of a validation level. -/
def validationLevelStr : ValidationLevel → Str
  | ValidationLevel.basic => str "basic"
  | ValidationLevel.enhanced => str "enhanced"
  | ValidationLevel.strict => str "strict"

/-- config.complexityThreshold. -/
inductive ComplexityThreshold
  | simple
  | moderate
  | all
deriving DecidableEq

/-- String value of a complexity threshold. -/
def thresholdStr : ComplexityThreshold → Str
  | ComplexityThreshold.simple => str "simple"
  | ComplexityThreshold.moderate => str "moderate"
  | ComplexityThreshold.all => str "all"

/-- interface RetryPolicy. -/
structure RetryPolicy where
  maxAttempts : Nat
  backoffMultiplier : ℚ
  initialDelay : Nat
deriving DecidableEq

/-- interface EditStrategy. -/
structure EditStrategy where
  modelSelection : ModelSelection
  promptTemplate : Str
  maxTokens : Nat
  validationLevel : ValidationLevel
  retryPolicy : RetryPolicy
deriving DecidableEq

/-- interface TurboEditsConfig. -/
structure TurboEditsConfig where
  complexityThreshold : ComplexityThreshold
  modelStrategy : ModelStrategy
  enableValidation : Bool
  maxRetries : Nat

/-- interface EditAnalysis. -/
structure EditAnalysis where
  complexity : EditComplexity
  confidence : ℚ
  estimatedTokens : Nat
  suggestedStrategy : EditStrategy
  reasoning : List Str

/-- TurboEditsProcessor.selectOptimalStrategy: the fixed complexity-indexed
table of model selection, token ceiling, validation level and retry policy
(the strategy cache is semantically transparent and the filePath argument
only feeds the cache key; the default switch branch is unreachable for the
four-value enum). -/
def selectOptimalStrategy (config : TurboEditsConfig)
    (complexity : EditComplexity) (_filePath : Str) : EditStrategy :=
  match complexity with
  | EditComplexity.SIMPLE =>
    { modelSelection :=
        if config.modelStrategy = ModelStrategy.quality then ModelSelection.balanced
        else ModelSelection.fast,
      promptTemplate := [],
      maxTokens := 2000,
      validationLevel := ValidationLevel.basic,
      retryPolicy := { maxAttempts := 2, backoffMultiplier := 3/2, initialDelay := 1000 } }
  | EditComplexity.MODERATE =>
    { modelSelection :=
        if config.modelStrategy = ModelStrategy.fast then ModelSelection.balanced
        else if config.modelStrategy = ModelStrategy.quality then ModelSelection.powerful
        else ModelSelection.balanced,
      promptTemplate := [],
      maxTokens := 4000,
      validationLevel := ValidationLevel.enhanced,
      retryPolicy := { maxAttempts := 3, backoffMultiplier := 2, initialDelay := 1500 } }
  | EditComplexity.COMPLEX =>
    { modelSelection :=
        if config.modelStrategy = ModelStrategy.fast then ModelSelection.balanced
        else ModelSelection.powerful,
      promptTemplate := [],
      maxTokens := 8000,
      validationLevel := ValidationLevel.strict,
      retryPolicy := { maxAttempts := 3, backoffMultiplier := 5/2, initialDelay := 2000 } }
  | EditComplexity.MULTI_FILE =>
    { modelSelection := ModelSelection.powerful,
      promptTemplate := [],
      maxTokens := 12000,
      validationLevel := ValidationLevel.strict,
      retryPolicy := { maxAttempts := 4, backoffMultiplier := 3, initialDelay := 3000 } }

/-- Consume an exact character sequence at the head, returning the rest. -/
def dropSeq : Str → Str → Option Str
  | [], s => some s
  | _ :: _, [] => none
  | n :: ns, h :: hs => if n = h then dropSeq ns hs else none

/-- One-or-more whitespace characters followed by a word character
(the regex tail backslash-s-plus backslash-w-plus, as a boolean test). -/
def wsThenWord : Str → Bool
  | [] => false
  | c :: cs =>
    isSpaceChar c &&
      (match cs.dropWhile isSpaceChar with
       | [] => false
       | d :: _ => isWordChar d)

/-- Match keyword, whitespace-plus, word-char at one position. -/
def matchKwWsWordAt (kw : Str) (s : Str) : Bool :=
  match dropSeq kw s with
  | some rest => wsThenWord rest
  | none => false

/-- Regex model for keyword backslash-s-plus backslash-w-plus anywhere. -/
def kwWsWord (kw : Str) (s : Str) : Bool := anyPos (matchKwWsWordAt kw) s

/-- Dot-star followed by a literal sequence, without crossing a newline
(JS dot does not match a newline). -/
def scanThenSeq (k2 : Str) : Str → Bool
  | [] => leadSeg k2 []
  | c :: rest => leadSeg k2 (c :: rest) || (c ≠ '\n' && scanThenSeq k2 rest)

/-- Match first keyword, any non-newline characters, second keyword at one
position. -/
def matchKwAnyKwAt (k1 k2 : Str) (s : Str) : Bool :=
  match dropSeq k1 s with
  | some rest => scanThenSeq k2 rest
  | none => false

/-- Regex model for k1 dot-star k2 anywhere. -/
def kwAnyKw (k1 k2 : Str) (s : Str) : Bool := anyPos (matchKwAnyKwAt k1 k2) s

/-- The five structural regex patterns of performComplexityAnalysis
(class/interface/function declarations, import-from, export-brace).  The
case-insensitive flag is modelled by matching against the lower-cased
prompt. -/
def structuralPatternList : List (Str → Bool) :=
  [kwWsWord (str "class"), kwWsWord (str "interface"), kwWsWord (str "function"),
   kwAnyKw (str "import") (str "from"), kwAnyKw (str "export") [Char.ofNat 123]]

/-- How many structural patterns fire on the (lower-cased) prompt. -/
def structuralPatternCount (p : Str) : Nat :=
  (structuralPatternList.filter (fun f => f p)).length

/-- The complexity keyword groups of performComplexityAnalysis. -/
def simpleComplexityKeywords : List Str :=
  [str "fix", str "correct", str "typo", str "update", str "change text", str "rename"]

/-- Keywords of the moderate tier. -/
def moderateComplexityKeywords : List Str :=
  [str "refactor", str "optimize", str "restructure", str "add function", str "modify logic"]

/-- Keywords of the complex tier. -/
def complexComplexityKeywords : List Str :=
  [str "architecture", str "design pattern", str "framework", str "migrate", str "rewrite"]

/-- Keywords of the multi-file tier. -/
def multiFileComplexityKeywords : List Str :=
  [str "multiple files", str "across files", str "project-wide", str "global change"]

/-- Array.prototype.join with ", ". -/
def joinCommaSp : List Str → Str
  | [] => []
  | [x] => x
  | x :: y :: rest => x ++ str ", " ++ joinCommaSp (y :: rest)

/-- Array.prototype.join with a newline. -/
def joinNl : List Str → Str
  | [] => []
  | [x] => x
  | x :: y :: rest => x ++ str "\n" ++ joinNl (y :: rest)

/-- Mutable state of performComplexityAnalysis before the strategy is
attached. -/
structure CAState where
  complexity : EditComplexity
  confidence : ℚ
  estimatedTokens : Nat
  reasoning : List Str

/-- One iteration of the keyword-group loop: when the group has a match in
the prompt, record the evidence and apply the group's escalation. -/
def keywordGroupStep (np : Str) (levelName : Str) (keywords : List Str)
    (update : CAState → CAState) (s : CAState) : CAState :=
  let matchList := keywords.filter (fun kw => hasSub np kw)
  if 0 < matchList.length then
    update { s with
      reasoning := s.reasoning ++
        [str "Detectadas palavras-chave de " ++ levelName ++ str ": " ++ joinCommaSp matchList] }
  else s

/-- The four keyword groups, iterated in the insertion order of the
complexityKeywords object literal (simple, moderate, complex, multiFile). -/
def applyKeywordGroups (np : Str) (s : CAState) : CAState :=
  let s1 := keywordGroupStep np (str "simple") simpleComplexityKeywords
    (fun t =>
      if t.complexity = EditComplexity.SIMPLE then { t with confidence := t.confidence + 1/10 }
      else t) s
  let s2 := keywordGroupStep np (str "moderate") moderateComplexityKeywords
    (fun t => { t with complexity := EditComplexity.MODERATE, confidence := 7/10,
                       estimatedTokens := 2000 }) s1
  let s3 := keywordGroupStep np (str "complex") complexComplexityKeywords
    (fun t => { t with complexity := EditComplexity.COMPLEX, confidence := 6/10,
                       estimatedTokens := 4000 }) s2
  keywordGroupStep np (str "multiFile") multiFileComplexityKeywords
    (fun t => { t with complexity := EditComplexity.MULTI_FILE, confidence := 9/10,
                       estimatedTokens := 8000 }) s3

/-- The component file extensions that escalate SIMPLE to MODERATE. -/
def complexFileTypes : List Str :=
  [str ".tsx", str ".jsx", str ".vue", str ".svelte"]

/-- TurboEditsProcessor.performComplexityAnalysis. -/
def performComplexityAnalysis (config : TurboEditsConfig)
    (prompt filePath fileContent : Str) : EditAnalysis :=
  let normalizedPrompt := strLower prompt
  let fileExtension := extname filePath
  let fileSize := fileContent.length
  let lineCount := (splitOnChar '\n' fileContent).length
  let s0 : CAState :=
    { complexity := EditComplexity.SIMPLE, confidence := 8/10,
      estimatedTokens := 1000, reasoning := [] }
  let s1 := applyKeywordGroups normalizedPrompt s0
  let s2 :=
    if 50000 < fileSize then
      { s1 with
        reasoning := s1.reasoning ++ [str "Arquivo grande (>50KB) - aumentando complexidade"],
        complexity :=
          if s1.complexity = EditComplexity.SIMPLE then EditComplexity.MODERATE
          else s1.complexity,
        estimatedTokens := s1.estimatedTokens + 1000 }
    else s1
  let s3 :=
    if 1000 < lineCount then
      { s2 with
        reasoning := s2.reasoning ++
          [str "Arquivo com muitas linhas (>1000) - aumentando complexidade"],
        estimatedTokens := s2.estimatedTokens + 500 }
    else s2
  let s4 :=
    if fileExtension ∈ complexFileTypes then
      { s3 with
        reasoning := s3.reasoning ++
          [str "Arquivo de componente - pode requerer análise estrutural"],
        complexity :=
          if s3.complexity = EditComplexity.SIMPLE then EditComplexity.MODERATE
          else s3.complexity }
    else s3
  let s5 :=
    if 2 < structuralPatternCount normalizedPrompt then
      { s4 with
        reasoning := s4.reasoning ++ [str "Múltiplas referências estruturais detectadas"],
        complexity :=
          if s4.complexity = EditComplexity.SIMPLE then EditComplexity.MODERATE
          else s4.complexity }
    else s4
  let s6 :=
    if 500 < prompt.length then
      { s5 with
        reasoning := s5.reasoning ++
          [str "Prompt longo (>500 chars) - mudança possivelmente complexa"],
        estimatedTokens := s5.estimatedTokens + prompt.length / 2 }
    else s5
  let s7 :=
    if s6.reasoning.length < 2 then
      { s6 with
        confidence := s6.confidence - 2/10,
        reasoning := s6.reasoning ++
          [str "Poucas evidências para classificação - confiança reduzida"] }
    else s6
  { complexity := s7.complexity,
    confidence := max (1/10) (min 1 s7.confidence),
    estimatedTokens := s7.estimatedTokens,
    suggestedStrategy := selectOptimalStrategy config s7.complexity filePath,
    reasoning := s7.reasoning }

/-- TurboEditsProcessor.estimateEditComplexity (its per-request cache is
semantically transparent). -/
def estimateEditComplexity (config : TurboEditsConfig)
    (prompt filePath fileContent : Str) : EditAnalysis :=
  performComplexityAnalysis config prompt filePath fileContent

/-- TurboEditsProcessor.shouldUseTurboEdits. -/
def shouldUseTurboEdits (config : TurboEditsConfig)
    (complexity : EditComplexity) : Bool :=
  match config.complexityThreshold with
  | ComplexityThreshold.simple => true
  | ComplexityThreshold.moderate => decide (complexity ≠ EditComplexity.SIMPLE)
  | ComplexityThreshold.all =>
    decide (complexity = EditComplexity.COMPLEX) ||
      decide (complexity = EditComplexity.MULTI_FILE)

/-- enum EditType of edit_templates.ts. -/
inductive EditType
  | SYNTAX_FIX
  | ADD_FEATURE
  | REFACTOR
  | OPTIMIZE
deriving DecidableEq

/-- interface EditTemplate of edit_templates.ts. -/
structure EditTemplate where
  type : EditType
  modelType : ModelSelection
  template : Str
  instructions : List Str
  constraints : List Str

/-- TurboEditsProcessor.determineEditType. -/
def determineEditType (prompt fileExtension : Str) : EditType :=
  let np := strLower prompt
  if hasSub np (str "fix") || hasSub np (str "correct") || hasSub np (str "error") then
    EditType.SYNTAX_FIX
  else if hasSub np (str "add") || hasSub np (str "create") || hasSub np (str "implement") then
    EditType.ADD_FEATURE
  else if hasSub np (str "refactor") || hasSub np (str "restructure") ||
      hasSub np (str "optimize") then
    EditType.REFACTOR
  else if hasSub np (str "optimize") || hasSub np (str "performance") ||
      hasSub np (str "improve") then
    EditType.OPTIMIZE
  else if fileExtension ∈ [str ".ts", str ".tsx", str ".js", str ".jsx"] then
    EditType.ADD_FEATURE
  else EditType.SYNTAX_FIX

/-- JS String.prototype.replace with a plain-string pattern: replace the
first occurrence only (an absent pattern leaves the string unchanged, an
empty pattern inserts at the front). -/
def replaceFirst : Str → Str → Str → Str
  | [], pat, rep => if pat.isEmpty then rep else []
  | c :: rest, pat, rep =>
    if leadSeg pat (c :: rest) then rep ++ (c :: rest).drop pat.length
    else c :: replaceFirst rest pat rep

/-- A double-brace template placeholder. -/
def ph (name : String) : Str :=
  Char.ofNat 123 :: Char.ofNat 123 :: name.data ++ [Char.ofNat 125, Char.ofNat 125]

/-- Decimal rendering of a natural number. -/
def natToStr (n : Nat) : Str := (toString n).data

/-- Decimal rendering of an integer. -/
def intToStr (i : Int) : Str := (toString i).data

/-- JS Math.round. -/
def jsRound (q : ℚ) : ℤ := ⌊q + 1/2⌋

/-- TurboEditsProcessor.generateOptimizedPrompt.  Template-string storage
(edit_templates.ts getEditTemplate) is an external collaborator per the
spec, passed as the getTemplate lookup. -/
def generateOptimizedPrompt (getTemplate : EditType → ModelSelection → EditTemplate)
    (originalPrompt filePath fileContent : Str) (strategy : EditStrategy)
    (context : Option (List Str)) : Str :=
  let fileExtension := extname filePath
  let fileName := basename filePath
  let editType := determineEditType originalPrompt fileExtension
  let template := getTemplate editType strategy.modelSelection
  let contextSection :=
    match context with
    | some ctx =>
      if 0 < ctx.length then
        str "\n\nContexto adicional:\n" ++ joinNl ctx ++ str "\n"
      else []
    | none => []
  let t0 := template.template
  let t1 := replaceFirst t0 (ph "ORIGINAL_PROMPT") originalPrompt
  let t2 := replaceFirst t1 (ph "FILE_NAME") fileName
  let t3 := replaceFirst t2 (ph "FILE_EXTENSION") fileExtension
  let t4 := replaceFirst t3 (ph "FILE_CONTENT") fileContent
  let t5 := replaceFirst t4 (ph "CONTEXT") contextSection
  let t6 := replaceFirst t5 (ph "MAX_TOKENS") (natToStr strategy.maxTokens)
  replaceFirst t6 (ph "VALIDATION_LEVEL") (validationLevelStr strategy.validationLevel)

/-- TurboEditsProcessor.getValidationRules (the processor's own rule-string
list, distinct from edit_validator.ts). -/
def turboGetValidationRules (level : ValidationLevel) (filePath : Str) : List Str :=
  let fileExtension := extname filePath
  let rules := [str "Manter sintaxe válida", str "Preservar funcionalidade existente"]
  let rules :=
    if level = ValidationLevel.enhanced ∨ level = ValidationLevel.strict then
      rules ++ [str "Verificar imports/exports", str "Manter estilo de código consistente"] ++
        (if fileExtension ∈ [str ".ts", str ".tsx"] then [str "Verificar tipos TypeScript"]
         else [])
    else rules
  if level = ValidationLevel.strict then
    rules ++ [str "Executar verificações de linting", str "Verificar breaking changes",
      str "Validar testes relacionados"]
  else rules

/-- TurboEditsProcessor.getProcessingHints. -/
def getProcessingHints (analysis : EditAnalysis) (strategy : EditStrategy) : List Str :=
  let hints :=
    [str "Complexidade estimada: " ++ complexityStr analysis.complexity ++
       str " (confiança: " ++ intToStr (jsRound (analysis.confidence * 100)) ++ str "%)",
     str "Modelo recomendado: " ++ modelSelectionStr strategy.modelSelection,
     str "Tokens estimados: " ++ natToStr analysis.estimatedTokens]
  let hints :=
    if analysis.complexity = EditComplexity.COMPLEX ∨
        analysis.complexity = EditComplexity.MULTI_FILE then
      hints ++ [str "Considere quebrar em edições menores se a resposta for muito longa"]
    else hints
  if strategy.validationLevel = ValidationLevel.strict then
    hints ++ [str "Validação rigorosa será aplicada - seja preciso na implementação"]
  else hints

/-- TurboEditsProcessor.getExpectedOutputFormat. -/
def getExpectedOutputFormat (strategy : EditStrategy) (filePath : Str) : Str :=
  let fileExtension := extname filePath
  let format := str "Código limpo e bem formatado"
  let format :=
    if fileExtension ∈ [str ".ts", str ".tsx"] then
      format ++ str " com tipos TypeScript corretos"
    else format
  if strategy.validationLevel = ValidationLevel.strict then
    format ++ str " e comentários explicativos quando necessário"
  else format

/-- interface OptimizedEdit. -/
structure OptimizedEdit where
  strategy : EditStrategy
  optimizedPrompt : Str
  expectedOutputFormat : Str
  validationRules : List Str
  processingHints : List Str

/-- TurboEditsProcessor.generateOptimizedEdit: throws (Except.error) exactly
at the threshold check, otherwise assembles the optimized edit.  The
outer catch only logs and rethrows. -/
def generateOptimizedEdit (config : TurboEditsConfig)
    (getTemplate : EditType → ModelSelection → EditTemplate)
    (prompt filePath fileContent : Str) (context : Option (List Str)) :
    Except Str OptimizedEdit :=
  let analysis := estimateEditComplexity config prompt filePath fileContent
  if shouldUseTurboEdits config analysis.complexity then
    let strategy := selectOptimalStrategy config analysis.complexity filePath
    Except.ok
      { strategy := strategy,
        optimizedPrompt :=
          generateOptimizedPrompt getTemplate prompt filePath fileContent strategy context,
        expectedOutputFormat := getExpectedOutputFormat strategy filePath,
        validationRules := turboGetValidationRules strategy.validationLevel filePath,
        processingHints := getProcessingHints analysis strategy }
  else
    Except.error
      (str "Complexidade " ++ complexityStr analysis.complexity ++
        str " abaixo do threshold " ++ thresholdStr config.complexityThreshold)

/-! ## edit_validator.ts -/

/-- interface ValidationResult. -/
structure ValidationResult where
  passed : Bool
  issues : List Str
  confidence : ℚ

/-- interface ValidationRule (validators are pure in the model; rule
exceptions cannot occur). -/
structure ValidationRule where
  name : Str
  description : Str
  weight : ℚ
  validator : Str → Str → Str → ValidationResult

/-- interface EditValidation (processingTime is not modelled and fixed
at 0). -/
structure EditValidation where
  syntaxValid : Bool
  structureIntact : Bool
  potentialIssues : List Str
  confidence : ℚ
  validationLevel : ValidationLevel
  processingTime : Nat

/-- Opening brace character. -/
def obrace : Char := Char.ofNat 123

/-- Closing brace character. -/
def cbrace : Char := Char.ofNat 125

/-- Single-quote character. -/
def squote : Char := Char.ofNat 39

/-- Double-quote character. -/
def dquote : Char := Char.ofNat 34

/-- Quote characters of the import regexes. -/
def quoteChar (c : Char) : Bool := c = squote || c = dquote

/-- The file extensions whose syntax check runs an external tool or parser
(JSON.parse, node --check, python -m py_compile). -/
def specialSyntaxExts : List Str :=
  [str ".json", str ".js", str ".jsx", str ".ts", str ".tsx", str ".py"]

/-- edit_validator.ts createSyntaxValidationRule.  The per-extension checks
(JSON.parse and the validateJavaScriptSyntax / validatePythonSyntax child
processes) are the oracle, taking the extension and the edited content; note
the source's js branch references an undefined filePath identifier, which
the oracle also absorbs. -/
def createSyntaxValidationRule (oracle : Str → Str → Except Str Unit)
    (fileExtension : Str) : ValidationRule :=
  { name := str "syntax",
    description := str "Validação de sintaxe básica",
    weight := 1,
    validator := fun originalContent editedContent _filePath =>
      let switchResult : Except Str (Bool × List Str) :=
        if fileExtension ∈ specialSyntaxExts then
          match oracle fileExtension editedContent with
          | Except.ok _ => Except.ok (true, [])
          | Except.error m => Except.error m
        else if (strTrim editedContent).length = 0 then
          Except.ok (false, [str "Arquivo resultante está vazio"])
        else Except.ok (true, [])
      match switchResult with
      | Except.error m =>
        { passed := false, issues := [str "Erro de sintaxe: " ++ m], confidence := 1/10 }
      | Except.ok (passed, issues) =>
        let issues := issues ++
          (if hasSub editedContent (str "undefined") &&
              !hasSub originalContent (str "undefined") then
            [str "Possível introdução de valores undefined"]
          else [])
        let issues := issues ++
          (if hasSub editedContent (str "null") && !hasSub originalContent (str "null") then
            [str "Possível introdução de valores null"]
          else [])
        { passed := passed, issues := issues,
          confidence := if passed then 9/10 else 1/10 } }

/-- edit_validator.ts countCharacters for one character. -/
def countChar (content : Str) (c : Char) : Nat := content.count c

/-- edit_validator.ts createStructureValidationRule: brace-count drift over
10 percent tolerance, and brace/paren/bracket balance of the edited
content. -/
def createStructureValidationRule : ValidationRule :=
  { name := str "structure",
    description := str "Validação de integridade estrutural",
    weight := 4/5,
    validator := fun originalContent editedContent _filePath =>
      let origOpen : ℚ := countChar originalContent obrace
      let origClose : ℚ := countChar originalContent cbrace
      let editOpen : ℚ := countChar editedContent obrace
      let editClose : ℚ := countChar editedContent cbrace
      let tolerance : ℚ := 1/10
      let c1 := decide (origOpen * tolerance < |origOpen - editOpen|)
      let c2 := decide (origClose * tolerance < |origClose - editClose|)
      let c3 := decide (editOpen ≠ editClose)
      let c4 := decide (countChar editedContent '(' ≠ countChar editedContent ')')
      let c5 := decide (countChar editedContent '[' ≠ countChar editedContent ']')
      let issues :=
        (if c1 then [str "Mudança significativa no número de chaves abertas"] else []) ++
        (if c2 then [str "Mudança significativa no número de chaves fechadas"] else []) ++
        (if c3 then [str "Chaves desbalanceadas no código editado"] else []) ++
        (if c4 then [str "Parênteses desbalanceados no código editado"] else []) ++
        (if c5 then [str "Colchetes desbalanceados no código editado"] else [])
      let passed := !(c1 || c2 || c3 || c4 || c5)
      { passed := passed, issues := issues,
        confidence := if passed then 4/5 else 3/10 } }

/-- edit_validator.ts createLengthValidationRule. -/
def createLengthValidationRule : ValidationRule :=
  { name := str "length",
    description := str "Validação de mudanças de tamanho",
    weight := 3/10,
    validator := fun originalContent editedContent _filePath =>
      let originalLines := (splitOnChar '\n' originalContent).length
      let editedLines := (splitOnChar '\n' editedContent).length
      let lineDiff := ((editedLines : ℤ) - (originalLines : ℤ)).natAbs
      let c1 := decide (originalLines * 2 < lineDiff)
      let c2 := decide ((editedContent.length : ℚ) < (originalContent.length : ℚ) * (1/10))
      let issues :=
        (if c1 then
          [str "Mudança muito grande no tamanho: " ++ natToStr originalLines ++
            str " → " ++ natToStr editedLines ++ str " linhas"]
        else []) ++
        (if c2 then [str "Arquivo resultante muito pequeno comparado ao original"] else [])
      { passed := !c2, issues := issues, confidence := 7/10 } }

/-- Consume one-or-more whitespace then a quoted body then the closing
quote (the regex tail after from in the import matcher). -/
def afterFromQuote : Str → Option Nat
  | [] => none
  | c :: rest =>
    if isSpaceChar c then
      let spaces := rest.takeWhile isSpaceChar
      let r2 := rest.drop spaces.length
      match r2 with
      | q :: r3 =>
        if quoteChar q then
          let body := r3.takeWhile (fun d => !quoteChar d)
          let r4 := r3.drop body.length
          match r4 with
          | q2 :: _ =>
            if quoteChar q2 then some (1 + spaces.length + 1 + body.length + 1) else none
          | [] => none
        else none
      | [] => none
    else none

/-- Scan for a whitespace-preceded from followed by a quoted module name,
without crossing a newline; prev is the previously consumed character and n
the characters consumed so far.  First-match model of the greedy dot-star
of the import regex (the choice does not affect any statement proved). -/
def importTailScan : Str → Char → Nat → Option Nat
  | [], _, _ => none
  | c :: rest, prev, n =>
    if isSpaceChar prev && leadSeg (str "from") (c :: rest) then
      match afterFromQuote ((c :: rest).drop 4) with
      | some m => some (n + 4 + m)
      | none =>
        if c = '\n' then none else importTailScan rest c (n + 1)
    else if c = '\n' then none
    else importTailScan rest c (n + 1)

/-- Try the import regex at one position, returning the match length. -/
def matchImportAt (s : Str) : Option Nat :=
  match dropSeq (str "import") s with
  | none => none
  | some r =>
    match r with
    | [] => none
    | c :: rest => if isSpaceChar c then importTailScan rest c 7 else none

/-- Collect the non-overlapping matches of a position matcher that reports
match lengths (model of String.prototype.match with the g flag). -/
def scanMatches (tryAt : Str → Option Nat) : Str → List Str
  | [] => []
  | c :: rest =>
    match tryAt (c :: rest) with
    | some n =>
      (c :: rest).take (max n 1) :: scanMatches tryAt ((c :: rest).drop (max n 1))
    | none => scanMatches tryAt rest
termination_by s => s.length
decreasing_by
  all_goals simp only [List.length_drop, List.length_cons]
  all_goals omega

/-- Count the non-overlapping matches of a position matcher. -/
def scanCount (tryAt : Str → Option Nat) (s : Str) : Nat :=
  (scanMatches tryAt s).length

/-- edit_validator.ts extractImports. -/
def extractImports (content : Str) : List Str := scanMatches matchImportAt content

/-- Tail of the invalid-import regex after from: whitespace then a
quote-free remainder reaching the line end. -/
def afterFromToEol (r : Str) : Bool :=
  let ws := r.takeWhile isSpaceChar
  let body := r.drop ws.length
  decide (1 ≤ ws.length) && body.all (fun d => !quoteChar d) &&
    (decide (body ≠ []) || decide (2 ≤ ws.length))

/-- One line against the invalid-import regex
(import, whitespace, anything, from, whitespace, unquoted tail). -/
def lineHasInvalidImport (l : Str) : Bool :=
  anyPos
    (fun s =>
      match dropSeq (str "import") s with
      | some (c :: rest) =>
        isSpaceChar c &&
          anyPos (fun t => leadSeg (str "from") t && afterFromToEol (t.drop 4)) rest
      | _ => false)
    l

/-- The multiline invalid-import test of the imports rule. -/
def invalidImportsPresent (content : Str) : Bool :=
  (splitOnChar '\n' content).any lineHasInvalidImport

/-- edit_validator.ts createImportExportValidationRule. -/
def createImportExportValidationRule (fileExtension : Str) : ValidationRule :=
  { name := str "imports",
    description := str "Validação de imports e exports",
    weight := 3/5,
    validator := fun originalContent editedContent _filePath =>
      if fileExtension ∉ [str ".js", str ".jsx", str ".ts", str ".tsx"] then
        { passed := true, issues := [], confidence := 1 }
      else
        let originalImports := extractImports originalContent
        let editedImports := extractImports editedContent
        let removedIssues := originalImports.filterMap
          (fun originalImport =>
            if editedImports.any (fun edited => hasSub edited originalImport) then none
            else some (str "Import possivelmente removido: " ++ originalImport))
        let invalid := invalidImportsPresent editedContent
        let issues := removedIssues ++
          (if invalid then [str "Imports com sintaxe inválida detectados"] else [])
        { passed := !invalid, issues := issues,
          confidence := if invalid then 2/5 else 4/5 } }

/-- Accumulator of detectIndentation. -/
structure IndAcc where
  spacesCount : Nat
  tabsCount : Nat
  sizeSum : Nat
  sizeCount : Nat

/-- Indentation summary. -/
structure Indentation where
  type : Str
  size : ℤ

/-- edit_validator.ts detectIndentation. -/
def detectIndentation (content : Str) : Indentation :=
  let lines := splitOnChar '\n' content
  let acc := lines.foldl
    (fun (a : IndAcc) line =>
      match line with
      | c :: _ =>
        if c = ' ' then
          { a with spacesCount := a.spacesCount + 1,
                   sizeSum := a.sizeSum + (line.takeWhile (fun d => d = ' ')).length,
                   sizeCount := a.sizeCount + 1 }
        else if c = '\t' then
          { a with tabsCount := a.tabsCount + 1,
                   sizeSum := a.sizeSum + 4,
                   sizeCount := a.sizeCount + 1 }
        else a
      | [] => a)
    { spacesCount := 0, tabsCount := 0, sizeSum := 0, sizeCount := 0 }
  { type := if acc.spacesCount < acc.tabsCount then str "tabs" else str "spaces",
    size :=
      if 0 < acc.sizeCount then jsRound ((acc.sizeSum : ℚ) / (acc.sizeCount : ℚ))
      else 2 }

/-- Quote-usage summary. -/
structure QuoteUsage where
  primary : Str
  ratio : ℚ

/-- edit_validator.ts analyzeQuoteUsage. -/
def analyzeQuoteUsage (content : Str) : QuoteUsage :=
  let singleQuotes := countChar content squote
  let doubleQuotes := countChar content dquote
  let total := singleQuotes + doubleQuotes
  { primary := if doubleQuotes < singleQuotes then str "single" else str "double",
    ratio := if 0 < total then (singleQuotes : ℚ) / (total : ℚ) else 1/2 }

/-- edit_validator.ts createStyleConsistencyRule (style never fails the
validation, it only reports). -/
def createStyleConsistencyRule : ValidationRule :=
  { name := str "style",
    description := str "Validação de consistência de estilo",
    weight := 2/5,
    validator := fun originalContent editedContent _filePath =>
      let originalIndentation := detectIndentation originalContent
      let editedIndentation := detectIndentation editedContent
      let originalQuotes := analyzeQuoteUsage originalContent
      let editedQuotes := analyzeQuoteUsage editedContent
      let issues :=
        (if originalIndentation.type ≠ editedIndentation.type then
          [str "Tipo de indentação mudou: " ++ originalIndentation.type ++
            str " → " ++ editedIndentation.type]
        else []) ++
        (if 1 < (originalIndentation.size - editedIndentation.size).natAbs then
          [str "Tamanho de indentação mudou: " ++ intToStr originalIndentation.size ++
            str " → " ++ intToStr editedIndentation.size]
        else []) ++
        (if originalQuotes.primary ≠ editedQuotes.primary then
          [str "Estilo de aspas mudou: " ++ originalQuotes.primary ++
            str " → " ++ editedQuotes.primary]
        else [])
      { passed := true, issues := issues, confidence := 3/5 } }

/-- Characters the type-annotation regex body admits. -/
def isTypeBodyChar (c : Char) : Bool :=
  isWordChar c && c ≠ '_' || c = '<' || c = '>' || c = '[' || c = ']' ||
    c = '|' || c = '&' || isSpaceChar c

/-- Characters counted as letters or digits by the annotation head. -/
def isAsciiLetter (c : Char) : Bool :=
  ('a' ≤ c && c ≤ 'z') || ('A' ≤ c && c ≤ 'Z')

/-- Try the type-annotation regex (colon, optional space, letter, body) at
one position. -/
def tryTypeAnnAt (s : Str) : Option Nat :=
  match s with
  | c :: rest =>
    if c = ':' then
      let ws := rest.takeWhile isSpaceChar
      let r2 := rest.drop ws.length
      match r2 with
      | d :: r3 =>
        if isAsciiLetter d then
          some (1 + ws.length + 1 + (r3.takeWhile isTypeBodyChar).length)
        else none
      | [] => none
    else none
  | [] => none

/-- edit_validator.ts extractTypeAnnotations. -/
def extractTypeAnnotations (content : Str) : List Str :=
  scanMatches tryTypeAnnAt content

/-- Try the interface regex (interface, whitespace, word, optional space,
braced quote-free body) at one position. -/
def tryInterfaceAt (s : Str) : Option Nat :=
  match dropSeq (str "interface") s with
  | none => none
  | some r =>
    let ws := r.takeWhile isSpaceChar
    if ws.length = 0 then none
    else
      let r2 := r.drop ws.length
      let w := r2.takeWhile isWordChar
      if w.length = 0 then none
      else
        let r3 := r2.drop w.length
        let ws2 := r3.takeWhile isSpaceChar
        let r4 := r3.drop ws2.length
        match r4 with
        | c :: r5 =>
          if c = obrace then
            let body := r5.takeWhile (fun d => d ≠ cbrace)
            let r6 := r5.drop body.length
            match r6 with
            | d :: _ =>
              if d = cbrace then
                some (9 + ws.length + w.length + ws2.length + 1 + body.length + 1)
              else none
            | [] => none
          else none
        | [] => none

/-- edit_validator.ts createTypeScriptValidationRule (its try block cannot
throw in the model, so passed stays true). -/
def createTypeScriptValidationRule : ValidationRule :=
  { name := str "typescript",
    description := str "Validação específica do TypeScript",
    weight := 7/10,
    validator := fun originalContent editedContent _filePath =>
      let originalTypes := extractTypeAnnotations originalContent
      let editedTypes := extractTypeAnnotations editedContent
      let originalInterfaces := scanCount tryInterfaceAt originalContent
      let editedInterfaces := scanCount tryInterfaceAt editedContent
      let issues :=
        (if (editedTypes.length : ℚ) < (originalTypes.length : ℚ) * (4/5) then
          [str "Muitas anotações de tipo foram removidas"]
        else []) ++
        (if hasSub editedContent (str ": any") && !hasSub originalContent (str ": any") then
          [str "Tipo 'any' foi introduzido - considere tipos mais específicos"]
        else []) ++
        (if editedInterfaces < originalInterfaces then
          [str "Interfaces podem ter sido removidas ou corrompidas"]
        else [])
      { passed := true, issues := issues, confidence := 4/5 } }

/-- Try a word-boundary keyword followed by whitespace at one position
(prev is the character before the position, none at the start). -/
def wordWsAt (w : Str) (prev : Option Char) (s : Str) : Option Nat :=
  if (match prev with | none => true | some p => !isWordChar p) then
    match dropSeq w s with
    | some (c :: _) => if isSpaceChar c then some (w.length + 1) else none
    | _ => none
  else none

/-- Count the matches of a word-boundary keyword-plus-whitespace regex. -/
def countWordWs (w : Str) : Str → Option Char → Nat
  | [], _ => 0
  | c :: rest, prev =>
    match wordWsAt w prev (c :: rest) with
    | some n => 1 + countWordWs w ((c :: rest).drop (max n 1)) (some ' ')
    | none => countWordWs w rest (some c)
termination_by s _ => s.length
decreasing_by
  all_goals simp only [List.length_drop, List.length_cons]
  all_goals omega

/-- edit_validator.ts createJavaScriptValidationRule. -/
def createJavaScriptValidationRule : ValidationRule :=
  { name := str "javascript",
    description := str "Validação específica do JavaScript",
    weight := 3/5,
    validator := fun originalContent editedContent _filePath =>
      let varUsage := countWordWs (str "var") editedContent none
      let constLetUsage :=
        countWordWs (str "const") editedContent none +
          countWordWs (str "let") editedContent none
      let issues :=
        (if 0 < varUsage && constLetUsage = 0 then
          [str "Considere usar 'const' ou 'let' em vez de 'var'"]
        else []) ++
        (if hasSub editedContent (str "console.log") &&
            !hasSub originalContent (str "console.log") then
          [str "Console.log adicionado - remover antes da produção"]
        else [])
      { passed := true, issues := issues, confidence := 7/10 } }

/-- Test for a keyword, optional whitespace, then a given character
(the eval/innerHTML/.html security patterns). -/
def kwWsChar (kw : Str) (ch : Char) (s : Str) : Bool :=
  anyPos
    (fun t =>
      match dropSeq kw t with
      | some r =>
        match r.dropWhile isSpaceChar with
        | d :: _ => d = ch
        | [] => false
      | none => false)
    s

/-- The security patterns with their messages. -/
def securityPatterns : List ((Str → Bool) × Str) :=
  [(kwWsChar (str "eval") '(', str "Uso de eval() detectado - risco de segurança"),
   (kwWsChar (str "innerHTML") '=',
     str "Uso de innerHTML - considere textContent ou createElement"),
   (fun s => hasSub s (str "document.write"),
     str "Uso de document.write - método obsoleto e inseguro"),
   (kwWsChar (str ".html") '(',
     str "Uso de .html() - verifique se o conteúdo é sanitizado")]

/-- edit_validator.ts createSecurityValidationRule. -/
def createSecurityValidationRule : ValidationRule :=
  { name := str "security",
    description := str "Validação de segurança básica",
    weight := 9/10,
    validator := fun originalContent editedContent _filePath =>
      let fired := securityPatterns.filter
        (fun pm => pm.1 editedContent && !pm.1 originalContent)
      let issues := fired.map Prod.snd
      let passed := fired.isEmpty
      { passed := passed, issues := issues,
        confidence := if passed then 9/10 else 1/5 } }

/-- Inner search of the nested-for regex: a second for-paren before any
closing brace, returning the remainder after its parenthesis. -/
def scanForNoBrace : Str → Option Str
  | [] => none
  | c :: rest =>
    match dropSeq (str "for") (c :: rest) with
    | some r1 =>
      (match r1.dropWhile isSpaceChar with
       | d :: r3 =>
         if d = '(' then some r3
         else if c = cbrace then none
         else scanForNoBrace rest
       | [] => if c = cbrace then none else scanForNoBrace rest)
    | none => if c = cbrace then none else scanForNoBrace rest

/-- Try the nested-for regex at one position (first-match model of its
greedy body; the choice does not affect any statement proved). -/
def tryNestedForAt (s : Str) : Option Nat :=
  match dropSeq (str "for") s with
  | none => none
  | some r1 =>
    match r1.dropWhile isSpaceChar with
    | c :: r3 =>
      if c = '(' then
        match scanForNoBrace r3 with
        | some rem => some (s.length - rem.length)
        | none => none
      else none
    | [] => none

/-- edit_validator.ts createPerformanceValidationRule (performance never
fails the validation). -/
def createPerformanceValidationRule : ValidationRule :=
  { name := str "performance",
    description := str "Validação de performance básica",
    weight := 1/2,
    validator := fun _originalContent editedContent _filePath =>
      let nestedLoops := scanCount tryNestedForAt editedContent
      let issues :=
        (if 2 < nestedLoops then
          [str "Loops aninhados profundos detectados - considere otimização"]
        else []) ++
        (if hasSub editedContent (str "+=") && hasSub editedContent (str "string") then
          [str "Concatenação de string com += - considere array.join() para performance"]
        else [])
      { passed := true, issues := issues, confidence := 3/5 } }

/-- Try an html tag regex (open angle, tag name, body without closing
angle, closing angle) at one position. -/
def tryTagAt (tagName : Str) (s : Str) : Option Nat :=
  match dropSeq ('<' :: tagName) s with
  | none => none
  | some r =>
    let body := r.takeWhile (fun d => d ≠ '>')
    match r.drop body.length with
    | d :: _ =>
      if d = '>' then some (1 + tagName.length + body.length + 1) else none
    | [] => none

/-- edit_validator.ts createAccessibilityValidationRule (accessibility never
fails the validation). -/
def createAccessibilityValidationRule (fileExtension : Str) : ValidationRule :=
  { name := str "accessibility",
    description := str "Validação de acessibilidade",
    weight := 2/5,
    validator := fun _originalContent editedContent _filePath =>
      if fileExtension ∉ [str ".tsx", str ".jsx", str ".html"] then
        { passed := true, issues := [], confidence := 1 }
      else
        let imgTags := scanMatches (tryTagAt (str "img")) editedContent
        let imgIssues := imgTags.filterMap
          (fun img =>
            if hasSub img (str "alt=") then none
            else some (str "Tag img sem atributo alt - importante para acessibilidade"))
        let inputTags := scanMatches (tryTagAt (str "input")) editedContent
        let inputIssues := inputTags.filterMap
          (fun input =>
            if hasSub input (str "aria-label") || hasSub editedContent (str "<label") then
              none
            else some (str "Input sem label associado - importante para acessibilidade"))
        { passed := true, issues := imgIssues ++ inputIssues, confidence := 7/10 } }

/-- edit_validator.ts getValidationRules: the level-conditioned rule
registry. -/
def getValidationRules (oracle : Str → Str → Except Str Unit)
    (level : ValidationLevel) (filePath : Str) : List ValidationRule :=
  let fileExtension := strLower (extname filePath)
  let rules := [createSyntaxValidationRule oracle fileExtension,
    createStructureValidationRule, createLengthValidationRule]
  let rules :=
    if level = ValidationLevel.enhanced ∨ level = ValidationLevel.strict then
      rules ++ [createImportExportValidationRule fileExtension,
          createStyleConsistencyRule] ++
        (if fileExtension ∈ [str ".ts", str ".tsx"] then
          [createTypeScriptValidationRule]
        else []) ++
        (if fileExtension ∈ [str ".js", str ".jsx", str ".ts", str ".tsx"] then
          [createJavaScriptValidationRule]
        else [])
    else rules
  if level = ValidationLevel.strict then
    rules ++ [createSecurityValidationRule, createPerformanceValidationRule,
      createAccessibilityValidationRule fileExtension]
  else rules

/-- edit_validator.ts validateEdit: run every active rule and aggregate
(weighted confidence, concatenated issues; syntaxValid and structureIntact
hold exactly when a correspondingly named rule passed). -/
def validateEdit (oracle : Str → Str → Except Str Unit)
    (originalContent editedContent filePath : Str)
    (validationLevel : ValidationLevel) : EditValidation :=
  let rules := getValidationRules oracle validationLevel filePath
  let results := rules.map
    (fun rule => (rule, rule.validator originalContent editedContent filePath))
  let totalWeight := (rules.map ValidationRule.weight).sum
  let weightedConfidence := (results.map (fun rr => rr.2.confidence * rr.1.weight)).sum
  let allIssues := (results.map (fun rr => rr.2.issues)).flatten
  let syntaxValid := results.any (fun rr => decide (rr.1.name = str "syntax") && rr.2.passed)
  let structureIntact :=
    results.any (fun rr => decide (rr.1.name = str "structure") && rr.2.passed)
  { syntaxValid := syntaxValid,
    structureIntact := structureIntact,
    potentialIssues := allIssues,
    confidence := if 0 < totalWeight then weightedConfidence / totalWeight else 0,
    validationLevel := validationLevel,
    processingTime := 0 }

/-! ## Derived notions used by the statements -/

/-- The highest keyword tier matched by the (lower-cased) prompt; the
sequential keyword-group loop leaves exactly this tier before the
escalators run. -/
def keywordBaseTier (np : Str) : EditComplexity :=
  if 0 < (multiFileComplexityKeywords.filter (fun kw => hasSub np kw)).length then
    EditComplexity.MULTI_FILE
  else if 0 < (complexComplexityKeywords.filter (fun kw => hasSub np kw)).length then
    EditComplexity.COMPLEX
  else if 0 < (moderateComplexityKeywords.filter (fun kw => hasSub np kw)).length then
    EditComplexity.MODERATE
  else EditComplexity.SIMPLE

/-- The escalators of performComplexityAnalysis that can raise SIMPLE to
MODERATE after the keyword loop. -/
def simpleEscalated (filePath fileContent np : Str) : Bool :=
  decide (50000 < fileContent.length) || decide (extname filePath ∈ complexFileTypes) ||
    decide (2 < structuralPatternCount np)

/-- Whether the extension-specific check of the syntax rule accepts the
content: the oracle accepts for the specially-validated extensions, and
otherwise the content must be nonempty after trimming. -/
def syntaxCheckOk (oracle : Str → Str → Except Str Unit)
    (fileExtension c : Str) : Bool :=
  if fileExtension ∈ specialSyntaxExts then
    match oracle fileExtension c with
    | Except.ok _ => true
    | Except.error _ => false
  else !(strTrim c).isEmpty

/-- The oracle that accepts everything (used to instantiate statements at
concrete inputs whose extension never consults the oracle). -/
def trivialOracle : Str → Str → Except Str Unit := fun _ _ => Except.ok ()

/-- Invariant carried through the cycle-detection DFS: the visited list is
duplicate-free and inside the universe, the recursion stack holds exactly
the path elements, stacked nodes are visited, and the fuel plus the visited
count dominates the fuel budget F0. -/
def DfsInv (U : List Str) (F0 fuel : Nat) (path : List Str) (s : DfsState) : Prop :=
  s.visited.Nodup ∧ (∀ x ∈ s.visited, x ∈ U) ∧
    (∀ x, x ∈ s.recStack ↔ x ∈ path) ∧ (∀ x ∈ s.recStack, x ∈ s.visited) ∧
    F0 ≤ fuel + s.visited.length

/-- Either a cycle has been recorded already, or each endpoint of the fixed
two-cycle through A and B can only be visited while still on the recursion
stack. -/
def DfsG (A B : Str) (s : DfsState) : Prop :=
  s.cycles ≠ [] ∨
    ((A ∈ s.visited → A ∈ s.recStack) ∧ (B ∈ s.visited → B ∈ s.recStack))

/-- Postcondition bundle of one dfs call: the recursion stack is restored,
the visited list only grows (staying duplicate-free and inside the
universe), recorded cycles are never lost, the two-cycle disjunction is
preserved, a call on a stacked node records a cycle, and a call on an
unvisited endpoint of the two-cycle records a cycle. -/
def DfsConcl (edges : List (Str × List Str)) (A B : Str) (U : List Str)
    (fuel : Nat) (node : Str) (path : List Str) (s : DfsState) : Prop :=
  (dfsStep edges fuel node path s).recStack = s.recStack ∧
    (∀ x ∈ s.visited, x ∈ (dfsStep edges fuel node path s).visited) ∧
    s.visited.length ≤ (dfsStep edges fuel node path s).visited.length ∧
    (dfsStep edges fuel node path s).visited.Nodup ∧
    (∀ x ∈ (dfsStep edges fuel node path s).visited, x ∈ U) ∧
    (s.cycles ≠ [] → (dfsStep edges fuel node path s).cycles ≠ []) ∧
    (DfsG A B s → DfsG A B (dfsStep edges fuel node path s)) ∧
    (node ∈ s.recStack → (dfsStep edges fuel node path s).cycles ≠ []) ∧
    ((node = A ∨ node = B) → node ∉ s.visited → DfsG A B s →
      (dfsStep edges fuel node path s).cycles ≠ [])

/-! # Theorems -/

theorem pick_foldl_invariant (est : Str → Nat) (maxTokens : Nat)
    (l : List FileTokenEstimate) :
    ∀ s : PickState, (∀ e ∈ l, e.tokens = est e.file) →
      ((s.selectedFiles.map est).sum = s.totalTokens ∧ s.totalTokens ≤ maxTokens) →
      (((l.foldl (pickStep maxTokens) s).selectedFiles.map est).sum =
          (l.foldl (pickStep maxTokens) s).totalTokens ∧
        (l.foldl (pickStep maxTokens) s).totalTokens ≤ maxTokens) := by
  induction l with
  | nil => intro s _ h; exact h
  | cons e l ih =>
    intro s hl h
    simp only [List.foldl_cons]
    apply ih
    · intro x hx; exact hl x (List.mem_cons_of_mem _ hx)
    · have he := hl e (List.mem_cons_self e l)
      simp only [pickStep]
      split
      next hc =>
        refine ⟨?_, by simpa using hc⟩
        simp [List.map_append, he, h.1]
      next => exact h

/-- C1: the greedy token-budget selection of optimizeContextForTokens never
exceeds the budget: for every token estimator, relevance estimator,
candidate list and budget, the summed per-file token estimate of the
selected files equals the reported totalTokens and stays within
maxTokens. -/
theorem optimizeContextForTokens_within_budget (est : Str → Nat) (rel : Str → ℚ)
    (candidateFiles : List Str) (maxTokens : Nat) :
    (((optimizeContextForTokens est rel candidateFiles maxTokens).selectedFiles.map est).sum =
        (optimizeContextForTokens est rel candidateFiles maxTokens).totalTokens) ∧
      (optimizeContextForTokens est rel candidateFiles maxTokens).totalTokens ≤ maxTokens := by
  unfold optimizeContextForTokens
  split
  · simp
  · have hmem : ∀ e ∈ List.mergeSort (candidateFiles.map
          (fun f => { file := f, tokens := est f, relevance := rel f : FileTokenEstimate }))
        ratioGe,
        e.tokens = est e.file := by
      intro e he
      obtain ⟨f, -, rfl⟩ := List.mem_map.mp (List.mem_mergeSort.mp he)
      rfl
    exact pick_foldl_invariant est maxTokens _ _ hmem ⟨by simp, Nat.zero_le _⟩

/-- C2: when any exception occurs during the analysis,
analyzeCodebaseForContext returns the conservative fallback, which selects
at most 5 files whose basename contains the strings index, main or app or
equals package.json, with relevanceRatio fixed at one half and totalTokens
equal to 500 times the number of selected files. -/
theorem analyzeCodebaseForContext_error_fallback
    (e : Str) (availableFiles : List Str) (elapsed : Nat) :
    analyzeCodebaseForContext (Except.error e) availableFiles elapsed =
        getConservativeFallback availableFiles elapsed ∧
      (analyzeCodebaseForContext (Except.error e) availableFiles elapsed).selectedFiles.length ≤ 5 ∧
      (∀ f ∈ (analyzeCodebaseForContext (Except.error e) availableFiles elapsed).selectedFiles,
        isMainFile f = true) ∧
      (analyzeCodebaseForContext (Except.error e) availableFiles elapsed).relevanceRatio = 1/2 ∧
      (analyzeCodebaseForContext (Except.error e) availableFiles elapsed).totalTokens =
        500 * (analyzeCodebaseForContext
          (Except.error e) availableFiles elapsed).selectedFiles.length := by
  refine ⟨rfl, ?_, ?_, rfl, ?_⟩
  · simp [analyzeCodebaseForContext, getConservativeFallback]
  · intro f hf
    simp only [analyzeCodebaseForContext, getConservativeFallback] at hf
    exact (List.mem_filter.mp (List.take_subset 5 _ hf)).2
  · simp [analyzeCodebaseForContext, getConservativeFallback, Nat.mul_comm]

theorem analyzeCodebaseForContext_error_fallback_witness :
    isMainFile (str "src/index.ts") = true :=
  (analyzeCodebaseForContext_error_fallback [] [str "src/index.ts"] 0).2.2.1
    (str "src/index.ts") (by decide)

/-- C8: in the strategy table of selectOptimalStrategy, for any fixed user
model-strategy preference and file path, maxTokens and every retry-policy
field (maxAttempts, backoffMultiplier, initialDelay) are monotonically
non-decreasing in the complexity tier, with the SIMPLE endpoint at
2 attempts, 1.5 backoff, 1000 ms and the MULTI_FILE endpoint at 4 attempts,
3.0 backoff, 3000 ms. -/
theorem selectOptimalStrategy_monotone_in_tier
    (config : TurboEditsConfig) (filePath : Str) (c1 c2 : EditComplexity)
    (h : tierRank c1 ≤ tierRank c2) :
    ((selectOptimalStrategy config c1 filePath).maxTokens ≤
        (selectOptimalStrategy config c2 filePath).maxTokens ∧
      (selectOptimalStrategy config c1 filePath).retryPolicy.maxAttempts ≤
        (selectOptimalStrategy config c2 filePath).retryPolicy.maxAttempts ∧
      (selectOptimalStrategy config c1 filePath).retryPolicy.backoffMultiplier ≤
        (selectOptimalStrategy config c2 filePath).retryPolicy.backoffMultiplier ∧
      (selectOptimalStrategy config c1 filePath).retryPolicy.initialDelay ≤
        (selectOptimalStrategy config c2 filePath).retryPolicy.initialDelay) ∧
      (selectOptimalStrategy config EditComplexity.SIMPLE filePath).retryPolicy =
        { maxAttempts := 2, backoffMultiplier := 3/2, initialDelay := 1000 } ∧
      (selectOptimalStrategy config EditComplexity.MULTI_FILE filePath).retryPolicy =
        { maxAttempts := 4, backoffMultiplier := 3, initialDelay := 3000 } := by
  refine ⟨?_, rfl, rfl⟩
  cases c1 <;> cases c2 <;>
    simp_all [selectOptimalStrategy, tierRank] <;> norm_num

theorem selectOptimalStrategy_monotone_in_tier_witness :
    (selectOptimalStrategy
        { complexityThreshold := ComplexityThreshold.moderate,
          modelStrategy := ModelStrategy.balanced,
          enableValidation := true, maxRetries := 3 }
        EditComplexity.SIMPLE []).maxTokens ≤
      (selectOptimalStrategy
        { complexityThreshold := ComplexityThreshold.moderate,
          modelStrategy := ModelStrategy.balanced,
          enableValidation := true, maxRetries := 3 }
        EditComplexity.MULTI_FILE []).maxTokens :=
  (selectOptimalStrategy_monotone_in_tier _ [] _ _ (by decide)).1.1

theorem generateOptimizedEdit_isOk_eq (config : TurboEditsConfig)
    (getTemplate : EditType → ModelSelection → EditTemplate)
    (prompt filePath fileContent : Str) (context : Option (List Str)) :
    (generateOptimizedEdit config getTemplate prompt filePath fileContent context).isOk =
      shouldUseTurboEdits config
        (estimateEditComplexity config prompt filePath fileContent).complexity := by
  unfold generateOptimizedEdit
  by_cases h : shouldUseTurboEdits config
      (estimateEditComplexity config prompt filePath fileContent).complexity = true
  · simp [h, Except.isOk, Except.toBool]
  · simp only [Bool.not_eq_true] at h
    simp [h, Except.isOk, Except.toBool]

/-- C10: generateOptimizedEdit throws exactly when the classified complexity
is below the configured complexityThreshold: threshold simple accepts every
tier, threshold moderate rejects only SIMPLE, and threshold all accepts only
COMPLEX and MULTI_FILE (so SIMPLE and MODERATE are always rejected
there). -/
theorem generateOptimizedEdit_threshold_errors (config : TurboEditsConfig)
    (getTemplate : EditType → ModelSelection → EditTemplate)
    (prompt filePath fileContent : Str) (context : Option (List Str)) :
    ((generateOptimizedEdit config getTemplate prompt filePath fileContent context).isOk
          = false ↔
        shouldUseTurboEdits config
          (estimateEditComplexity config prompt filePath fileContent).complexity = false) ∧
      (config.complexityThreshold = ComplexityThreshold.simple →
        (generateOptimizedEdit config getTemplate prompt filePath fileContent context).isOk
          = true) ∧
      (config.complexityThreshold = ComplexityThreshold.moderate →
        ((generateOptimizedEdit config getTemplate prompt filePath fileContent context).isOk
            = false ↔
          (estimateEditComplexity config prompt filePath fileContent).complexity =
            EditComplexity.SIMPLE)) ∧
      (config.complexityThreshold = ComplexityThreshold.all →
        ((generateOptimizedEdit config getTemplate prompt filePath fileContent context).isOk
            = false ↔
          ((estimateEditComplexity config prompt filePath fileContent).complexity =
              EditComplexity.SIMPLE ∨
            (estimateEditComplexity config prompt filePath fileContent).complexity =
              EditComplexity.MODERATE))) := by
  rw [generateOptimizedEdit_isOk_eq config getTemplate prompt filePath fileContent context]
  cases hc : (estimateEditComplexity config prompt filePath fileContent).complexity <;>
    cases ht : config.complexityThreshold <;>
      simp [shouldUseTurboEdits, ht]

theorem generateOptimizedEdit_threshold_errors_witness :
    (generateOptimizedEdit
        { complexityThreshold := ComplexityThreshold.all,
          modelStrategy := ModelStrategy.balanced,
          enableValidation := true, maxRetries := 3 }
        (fun _ _ =>
          { type := EditType.SYNTAX_FIX, modelType := ModelSelection.fast,
            template := [], instructions := [], constraints := [] })
        [] [] [] none).isOk = false :=
  ((generateOptimizedEdit_threshold_errors
      { complexityThreshold := ComplexityThreshold.all,
        modelStrategy := ModelStrategy.balanced,
        enableValidation := true, maxRetries := 3 }
      (fun _ _ =>
        { type := EditType.SYNTAX_FIX, modelType := ModelSelection.fast,
          template := [], instructions := [], constraints := [] })
      [] [] [] none).2.2.2 rfl).mpr (Or.inl (by decide))

theorem bfsLoop_nodup_no_start (edges : List (Str × List Str)) (maxDepth : Int)
    (start : Str) :
    ∀ (fuel : Nat) (q : List (Str × Nat)) (visited deps : List Str),
      deps.Nodup → (∀ x ∈ deps, x ∈ visited) → start ∉ deps →
      (start ∈ visited ∨ ∀ e ∈ q, e = (start, 0)) →
      ((bfsLoop edges maxDepth fuel q visited deps).Nodup ∧
        start ∉ bfsLoop edges maxDepth fuel q visited deps) := by
  intro fuel
  induction fuel with
  | zero => intro q visited deps hnd _ hs _; exact ⟨hnd, hs⟩
  | succ fuel ih =>
    intro q visited deps hnd hsub hs hq
    match q with
    | [] => exact ⟨hnd, hs⟩
    | (currentFile, depth) :: rest =>
      rw [bfsLoop]
      split
      · -- skip branch: already visited or beyond the depth bound
        refine ih rest visited deps hnd hsub hs ?_
        rcases hq with hv | hall
        · exact Or.inl hv
        · exact Or.inr (fun e he => hall e (List.mem_cons_of_mem _ he))
      · next hcond =>
        push_neg at hcond
        have hnotvis : currentFile ∉ visited := hcond.1
        refine ih _ _ _ ?_ ?_ ?_ ?_
        · -- new deps list stays duplicate-free
          split
          · next =>
            refine List.Nodup.append hnd (List.nodup_singleton _) ?_
            intro x hx hx1
            rw [List.mem_singleton] at hx1
            subst hx1
            exact hnotvis (hsub x hx)
          · exact hnd
        · -- new deps list stays inside the new visited set
          intro x hx
          split at hx
          · rcases List.mem_append.mp hx with h1 | h1
            · exact List.mem_cons_of_mem _ (hsub x h1)
            · rw [List.mem_singleton] at h1
              subst h1
              exact List.mem_cons_self _ _
          · exact List.mem_cons_of_mem _ (hsub x hx)
        · -- start never enters the emitted list
          split
          · next hd =>
            intro hx
            rcases List.mem_append.mp hx with h1 | h1
            · exact hs h1
            · rw [List.mem_singleton] at h1
              rcases hq with hv | hall
              · exact hnotvis (h1 ▸ hv)
              · have := hall (currentFile, depth) (List.mem_cons_self _ _)
                have hd0 : depth = 0 := by
                  have := congrArg Prod.snd this
                  simpa using this
                omega
          · exact hs
        · -- after the first visit the start file is in the visited set
          left
          rcases hq with hv | hall
          · exact List.mem_cons_of_mem _ hv
          · have := hall (currentFile, depth) (List.mem_cons_self _ _)
            have : currentFile = start := by
              have := congrArg Prod.fst this
              simpa using this
            rw [this]
            exact List.mem_cons_self _ _

/-- C9: for every dependency graph (cyclic or not), start file and depth
bound, the depth-bounded transitive-dependency BFS, in both its
findTransitiveDependencies and getDependenciesAtDepth copies, returns a
duplicate-free list that never contains the start file. -/
theorem transitiveDependencies_nodup_no_start (graph : DependencyGraph)
    (startFile : Str) (maxDepth : Int) :
    ((findTransitiveDependencies graph startFile maxDepth).Nodup ∧
        startFile ∉ findTransitiveDependencies graph startFile maxDepth) ∧
      ((getDependenciesAtDepth startFile graph maxDepth).Nodup ∧
        startFile ∉ getDependenciesAtDepth startFile graph maxDepth) := by
  constructor <;>
    exact bfsLoop_nodup_no_start graph.edges maxDepth startFile _ _ [] []
      List.nodup_nil (by simp) (by simp)
      (Or.inr (by intro e he; simpa using List.mem_singleton.mp he))

/-- C3: in every edges map produced by buildGraphEdges, every target of
every edge list is itself a key of the node map: imports that do not
resolve to a known node are dropped rather than inserted as dangling
entries. -/
theorem buildGraphEdges_no_dangling_targets
    (nodes : List (Str × FileNode)) (basePath : Str)
    (entry : Str × List Str) (he : entry ∈ buildGraphEdges nodes basePath)
    (tgt : Str) (ht : tgt ∈ entry.2) : hasKey nodes tgt = true := by
  obtain ⟨p, -, rfl⟩ := List.mem_map.mp he
  obtain ⟨imp, -, hfm⟩ := List.mem_filterMap.mp ht
  rcases hres : resolveImportPath imp p.1 basePath nodes with _ | r
  · rw [hres] at hfm
    simp at hfm
  · rw [hres] at hfm
    by_cases hk : hasKey nodes r = true
    · simp only [hk, if_true] at hfm
      rw [Option.some_inj] at hfm
      rwa [hfm] at hk
    · simp only [Bool.not_eq_true] at hk
      simp [hk] at hfm

theorem buildGraphEdges_no_dangling_targets_witness :
    hasKey
      [(str "a.ts",
        { path := str "a.ts", imports := [str "./u"], exports := [],
          size := 0, lastModified := 0 }),
       (str "u.ts",
        { path := str "u.ts", imports := [], exports := [],
          size := 0, lastModified := 0 })]
      (str "u.ts") = true :=
  buildGraphEdges_no_dangling_targets
    [(str "a.ts",
      { path := str "a.ts", imports := [str "./u"], exports := [],
        size := 0, lastModified := 0 }),
     (str "u.ts",
      { path := str "u.ts", imports := [], exports := [],
        size := 0, lastModified := 0 })]
    (str "b") (str "a.ts", [str "u.ts"]) (by decide) (str "u.ts") (by decide)

theorem foldl_measure_mono {σ β : Type _} (m : σ → ℚ) (f : σ → β → σ)
    (l : List β) (h : ∀ s : σ, ∀ x ∈ l, m s ≤ m (f s x)) :
    ∀ s : σ, m s ≤ m (l.foldl f s) := by
  induction l with
  | nil => intro s; exact le_refl _
  | cons b l ih =>
    intro s
    refine le_trans (h s b (List.mem_cons_self b l)) (ih ?_ (f s b))
    intro t x hx
    exact h t x (List.mem_cons_of_mem _ hx)

theorem entityStep_score_mono (nfn nc : Str) (a : RelevanceAcc) (e : Str) :
    a.relevanceScore ≤ (entityStep nfn nc a e).relevanceScore := by
  unfold entityStep
  dsimp only
  split <;> split <;> (try dsimp only) <;> linarith

theorem conceptStep_score_mono (nfn nc : Str) (a : RelevanceAcc) (e : Str) :
    a.relevanceScore ≤ (conceptStep nfn nc a e).relevanceScore := by
  unfold conceptStep
  dsimp only
  split <;> split <;> (try dsimp only) <;> linarith

theorem relevanceAcc3_score_nonneg (filePath : Str) (extraction : EntityExtraction)
    (content : Str) : 0 ≤ (relevanceAcc3 filePath extraction content).relevanceScore := by
  unfold relevanceAcc3
  set nfn := strLower (basename filePath)
  set nc := strLower content
  set acc0 : RelevanceAcc :=
    { relevanceScore := 0, matchedEntities := [], matchType := MatchType.structural }
  set acc1 := extraction.entities.foldl (entityStep nfn nc) acc0 with hacc1
  have h0 : (0:ℚ) ≤ acc1.relevanceScore := by
    rw [hacc1]
    exact foldl_measure_mono RelevanceAcc.relevanceScore _ _
      (fun s x _ => entityStep_score_mono nfn nc s x) acc0
  set score2 := extraction.fileTypes.foldl
    (fun score fileType =>
      if decide ((extname filePath).drop 1 = fileType) || hasSub (basename filePath) fileType
      then score + 1/2 else score)
    acc1.relevanceScore with hscore2
  have h1 : acc1.relevanceScore ≤ score2 := by
    rw [hscore2]
    refine foldl_measure_mono (fun q => q) _ _ ?_ acc1.relevanceScore
    intro s x _
    dsimp
    split <;> linarith
  have h2 : score2 ≤ (extraction.concepts.foldl (conceptStep nfn nc)
      { acc1 with relevanceScore := score2 }).relevanceScore := by
    exact foldl_measure_mono RelevanceAcc.relevanceScore _ _
      (fun s x _ => conceptStep_score_mono nfn nc s x) _
  linarith

theorem relevanceScore4_ge (filePath : Str) (extraction : EntityExtraction)
    (content : Str) :
    (relevanceAcc3 filePath extraction content).relevanceScore ≤
      relevanceScore4 filePath extraction content := by
  unfold relevanceScore4
  refine foldl_measure_mono (fun q => q) _ _ ?_ _
  intro s x _
  dsimp
  split <;> split <;> linarith

theorem calculateStructuralScore_nonneg (filePath : Str) :
    0 ≤ calculateStructuralScore filePath := by
  unfold calculateStructuralScore
  have htbl : ∀ e ∈ structuralPatternTable, (0:ℚ) ≤ e.2 := by
    intro e he
    fin_cases he <;> norm_num
  have h1 : (0:ℚ) ≤ structuralPatternTable.foldl
      (fun score entry =>
        if hasSub (strLower (basename filePath)) entry.1 ||
            hasSub (strLower (dirname filePath)) entry.1 then
          score + entry.2
        else score)
      0 := by
    refine foldl_measure_mono (fun q => q) _ _ ?_ 0
    intro s x hx
    dsimp
    split
    · have := htbl x hx; linarith
    · exact le_refl _
  refine le_trans h1 ?_
  refine foldl_measure_mono (fun q => q) _ _ ?_ _
  intro s x _
  dsimp
  split <;> linarith

theorem calculateTextSimilarity_nonneg (t1 t2 : Str) :
    0 ≤ calculateTextSimilarity t1 t2 := by
  unfold calculateTextSimilarity
  dsimp only
  split
  · exact le_refl _
  · split
    · exact le_refl _
    · exact div_nonneg (by positivity) (by positivity)

theorem relevanceRawScore_nonneg (filePath : Str) (extraction : EntityExtraction)
    (originalPrompt content : Str) :
    0 ≤ relevanceRawScore filePath extraction originalPrompt content := by
  unfold relevanceRawScore
  dsimp only
  have h4 : (0:ℚ) ≤ relevanceScore4 filePath extraction content :=
    le_trans (relevanceAcc3_score_nonneg filePath extraction content)
      (relevanceScore4_ge filePath extraction content)
  have hst := calculateStructuralScore_nonneg filePath
  have hsim := calculateTextSimilarity_nonneg (strLower originalPrompt) (strLower content)
  split_ifs <;> linarith

/-- C6: the relevanceScore of the SemanticMatch returned by
analyzeFileRelevance always lies in the closed interval from 0 to 10, for
every file path, entity extraction, prompt and file content: the additive
signals and multiplicative size penalties never drive it below 0, and the
final score is capped at 10. -/
theorem analyzeFileRelevance_score_in_range (filePath : Str)
    (extraction : EntityExtraction) (originalPrompt content : Str) :
    0 ≤ (analyzeFileRelevance filePath extraction originalPrompt content).relevanceScore ∧
      (analyzeFileRelevance filePath extraction originalPrompt content).relevanceScore ≤ 10 :=
  ⟨le_min (relevanceRawScore_nonneg filePath extraction originalPrompt content)
      (by norm_num),
    min_le_right _ _⟩

theorem leadSeg_append (n : Str) : ∀ (h s : Str), leadSeg n h = true →
    leadSeg n (h ++ s) = true := by
  induction n with
  | nil => intro h s _; rfl
  | cons c ns ih =>
    intro h s hl
    cases h with
    | nil => simp [leadSeg] at hl
    | cons d hs2 =>
      simp only [leadSeg, Bool.and_eq_true] at hl
      simp only [List.cons_append, leadSeg, Bool.and_eq_true]
      exact ⟨hl.1, ih hs2 s hl.2⟩

theorem anyPos_of_self (f : Str → Bool) (l : Str) (h : f l = true) :
    anyPos f l = true := by
  cases l <;> simp [anyPos, h]

theorem anyPos_append (f : Str → Bool) (s : Str)
    (hf : ∀ t, f t = true → f (t ++ s) = true) :
    ∀ h, anyPos f h = true → anyPos f (h ++ s) = true := by
  intro h
  induction h with
  | nil =>
    intro hh
    simp only [anyPos] at hh
    exact anyPos_of_self f s (by simpa using hf [] hh)
  | cons c r ih =>
    intro hh
    simp only [anyPos, Bool.or_eq_true] at hh
    simp only [List.cons_append, anyPos, Bool.or_eq_true]
    rcases hh with h1 | h1
    · exact Or.inl (by simpa using hf _ h1)
    · exact Or.inr (ih h1)

theorem hasSub_append (h n s : Str) (hh : hasSub h n = true) :
    hasSub (h ++ s) n = true :=
  anyPos_append _ s (fun t ht => leadSeg_append n t s ht) h hh

theorem dropSeq_append (kw : Str) : ∀ (t s r : Str), dropSeq kw t = some r →
    dropSeq kw (t ++ s) = some (r ++ s) := by
  induction kw with
  | nil =>
    intro t s r h
    simp only [dropSeq, Option.some_inj] at h
    simp [dropSeq, h]
  | cons n ns ih =>
    intro t s r h
    cases t with
    | nil => simp [dropSeq] at h
    | cons d hs2 =>
      simp only [dropSeq] at h
      simp only [List.cons_append, dropSeq]
      split at h
      · next hnd => simp only [hnd, if_true]; exact ih hs2 s r h
      · exact absurd h (by simp)

theorem dropWhile_append_of_ne_nil {p : Char → Bool} (xs ys : Str)
    (h : xs.dropWhile p ≠ []) :
    (xs ++ ys).dropWhile p = xs.dropWhile p ++ ys := by
  rw [List.dropWhile_append]
  simp only [List.isEmpty_iff]
  split
  · next he => exact absurd he h
  · rfl

theorem wsThenWord_append (t s : Str) (h : wsThenWord t = true) :
    wsThenWord (t ++ s) = true := by
  cases t with
  | nil => simp [wsThenWord] at h
  | cons c cs =>
    simp only [wsThenWord, Bool.and_eq_true] at h
    obtain ⟨hc, hrest⟩ := h
    cases hdw : cs.dropWhile isSpaceChar with
    | nil => rw [hdw] at hrest; simp at hrest
    | cons d ds =>
      rw [hdw] at hrest
      simp only [List.cons_append, wsThenWord, Bool.and_eq_true]
      refine ⟨hc, ?_⟩
      rw [dropWhile_append_of_ne_nil cs s (by rw [hdw]; simp), hdw]
      simpa using hrest

theorem matchKwWsWordAt_append (kw t s : Str) (h : matchKwWsWordAt kw t = true) :
    matchKwWsWordAt kw (t ++ s) = true := by
  unfold matchKwWsWordAt at h ⊢
  rcases hds : dropSeq kw t with _ | r
  · rw [hds] at h; exact absurd h (by simp)
  · rw [hds] at h
    rw [dropSeq_append kw t s r hds]
    exact wsThenWord_append r s h

theorem kwWsWord_append (kw p s : Str) (h : kwWsWord kw p = true) :
    kwWsWord kw (p ++ s) = true :=
  anyPos_append _ s (fun t ht => matchKwWsWordAt_append kw t s ht) p h

theorem scanThenSeq_nil_true (s : Str) : scanThenSeq [] s = true := by
  cases s <;> simp [scanThenSeq, leadSeg]

theorem scanThenSeq_append (k2 : Str) : ∀ (t s : Str), scanThenSeq k2 t = true →
    scanThenSeq k2 (t ++ s) = true := by
  intro t
  induction t with
  | nil =>
    intro s h
    simp only [scanThenSeq] at h
    have hk : k2 = [] := by
      cases k2 with
      | nil => rfl
      | cons a b => simp [leadSeg] at h
    subst hk
    simpa using scanThenSeq_nil_true s
  | cons c r ih =>
    intro s h
    simp only [scanThenSeq, Bool.or_eq_true, Bool.and_eq_true] at h
    simp only [List.cons_append, scanThenSeq, Bool.or_eq_true, Bool.and_eq_true]
    rcases h with h1 | h1
    · exact Or.inl (leadSeg_append k2 (c :: r) s h1)
    · exact Or.inr ⟨h1.1, ih s h1.2⟩

theorem matchKwAnyKwAt_append (k1 k2 t s : Str) (h : matchKwAnyKwAt k1 k2 t = true) :
    matchKwAnyKwAt k1 k2 (t ++ s) = true := by
  unfold matchKwAnyKwAt at h ⊢
  rcases hds : dropSeq k1 t with _ | r
  · rw [hds] at h; exact absurd h (by simp)
  · rw [hds] at h
    rw [dropSeq_append k1 t s r hds]
    exact scanThenSeq_append k2 r s h

theorem kwAnyKw_append (k1 k2 p s : Str) (h : kwAnyKw k1 k2 p = true) :
    kwAnyKw k1 k2 (p ++ s) = true :=
  anyPos_append _ s (fun t ht => matchKwAnyKwAt_append k1 k2 t s ht) p h

theorem filter_count_mono {α : Type _} (l : List α) (p q : α → Bool)
    (h : ∀ x ∈ l, p x = true → q x = true) :
    (l.filter p).length ≤ (l.filter q).length := by
  induction l with
  | nil => exact le_refl _
  | cons x l ih =>
    have ih2 := ih (fun y hy => h y (List.mem_cons_of_mem _ hy))
    by_cases hp : p x = true
    · have hq := h x (List.mem_cons_self x l) hp
      simp [List.filter_cons, hp, hq, ih2]
    · simp only [Bool.not_eq_true] at hp
      by_cases hq : q x = true
      · simp [List.filter_cons, hp, hq]
        omega
      · simp only [Bool.not_eq_true] at hq
        simp [List.filter_cons, hp, hq, ih2]

theorem structuralPatternCount_mono (p s : Str) :
    structuralPatternCount p ≤ structuralPatternCount (p ++ s) := by
  unfold structuralPatternCount
  refine filter_count_mono structuralPatternList _ _ ?_
  intro f hf
  fin_cases hf
  · exact fun h => kwWsWord_append _ p s h
  · exact fun h => kwWsWord_append _ p s h
  · exact fun h => kwWsWord_append _ p s h
  · exact fun h => kwAnyKw_append _ _ p s h
  · exact fun h => kwAnyKw_append _ _ p s h

theorem strLower_append (a b : Str) : strLower (a ++ b) = strLower a ++ strLower b :=
  List.map_append _ a b

theorem keywordGroup_filter_mono (kws : List Str) (np ns : Str)
    (h : 0 < (kws.filter (fun kw => hasSub np kw)).length) :
    0 < (kws.filter (fun kw => hasSub (np ++ ns) kw)).length :=
  lt_of_lt_of_le h
    (filter_count_mono kws _ _ (fun kw _ hk => hasSub_append np kw ns hk))

theorem tierRank_le_iff_simple (b : EditComplexity) (h : tierRank b ≤ 0) :
    b = EditComplexity.SIMPLE := by
  cases b <;> simp [tierRank] at h ⊢

theorem one_le_tierRank_of_ne (b : EditComplexity)
    (h : b ≠ EditComplexity.SIMPLE) : 1 ≤ tierRank b := by
  cases b <;> simp_all [tierRank]

theorem keywordBaseTier_mono (np ns : Str) :
    tierRank (keywordBaseTier np) ≤ tierRank (keywordBaseTier (np ++ ns)) := by
  unfold keywordBaseTier
  have h1 := keywordGroup_filter_mono multiFileComplexityKeywords np ns
  have h2 := keywordGroup_filter_mono complexComplexityKeywords np ns
  have h3 := keywordGroup_filter_mono moderateComplexityKeywords np ns
  split_ifs <;> simp_all [tierRank]

theorem keywordGroupStep_simple_complexity (np : Str) (s : CAState) :
    (keywordGroupStep np (str "simple") simpleComplexityKeywords
        (fun t =>
          if t.complexity = EditComplexity.SIMPLE then
            { t with confidence := t.confidence + 1/10 }
          else t)
        s).complexity = s.complexity := by
  unfold keywordGroupStep
  dsimp only
  split
  · split <;> rfl
  · rfl

theorem keywordGroupStep_set_complexity (np nm : Str) (kws : List Str)
    (c : EditComplexity) (q : ℚ) (n : Nat) (s : CAState) :
    (keywordGroupStep np nm kws
        (fun t => { t with complexity := c, confidence := q, estimatedTokens := n })
        s).complexity =
      if 0 < (kws.filter (fun kw => hasSub np kw)).length then c
      else s.complexity := by
  unfold keywordGroupStep
  dsimp only
  split <;> rfl

theorem applyKeywordGroups_complexity (np : Str) (s : CAState)
    (hs : s.complexity = EditComplexity.SIMPLE) :
    (applyKeywordGroups np s).complexity = keywordBaseTier np := by
  unfold applyKeywordGroups
  dsimp only
  rw [keywordGroupStep_set_complexity, keywordGroupStep_set_complexity,
    keywordGroupStep_set_complexity, keywordGroupStep_simple_complexity, hs,
    keywordBaseTier]

theorem performComplexityAnalysis_complexity_eq (config : TurboEditsConfig)
    (p filePath fileContent : Str) :
    (performComplexityAnalysis config p filePath fileContent).complexity =
      (if keywordBaseTier (strLower p) = EditComplexity.SIMPLE ∧
          simpleEscalated filePath fileContent (strLower p) = true then
        EditComplexity.MODERATE
      else keywordBaseTier (strLower p)) := by
  unfold performComplexityAnalysis
  simp only [apply_ite CAState.complexity, ite_self]
  rw [applyKeywordGroups_complexity (strLower p) _ rfl]
  unfold simpleEscalated
  by_cases hb : keywordBaseTier (strLower p) = EditComplexity.SIMPLE <;>
    by_cases e1 : 50000 < fileContent.length <;>
      by_cases e2 : extname filePath ∈ complexFileTypes <;>
        by_cases e3 : 2 < structuralPatternCount (strLower p) <;>
          ((try simp_all);
            try (split_ifs <;> first | rfl | omega))

/-- C4: the complexity classification is monotonic in the prompt: for every
configuration, file path and file content, appending any suffix to the
prompt (in particular additional complexity-escalating keywords) never
lowers the returned tier in the ordinal order SIMPLE, MODERATE, COMPLEX,
MULTI_FILE; and within one pass the returned tier is never below the
highest keyword tier matched by the prompt, so a lower-tier keyword match
never downgrades an already-escalated complexity. -/
theorem performComplexityAnalysis_monotone (config : TurboEditsConfig)
    (p suffix filePath fileContent : Str) :
    tierRank (performComplexityAnalysis config p filePath fileContent).complexity ≤
        tierRank
          (performComplexityAnalysis config (p ++ suffix) filePath fileContent).complexity ∧
      tierRank (keywordBaseTier (strLower p)) ≤
        tierRank (performComplexityAnalysis config p filePath fileContent).complexity := by
  constructor
  · rw [performComplexityAnalysis_complexity_eq, performComplexityAnalysis_complexity_eq,
      strLower_append]
    have hbase := keywordBaseTier_mono (strLower p) (strLower suffix)
    have hesc : simpleEscalated filePath fileContent (strLower p) = true →
        simpleEscalated filePath fileContent (strLower p ++ strLower suffix) = true := by
      unfold simpleEscalated
      simp only [Bool.or_eq_true, decide_eq_true_eq]
      intro h
      rcases h with (h | h) | h
      · exact Or.inl (Or.inl h)
      · exact Or.inl (Or.inr h)
      · exact Or.inr (lt_of_lt_of_le h (structuralPatternCount_mono _ _))
    split_ifs with h1 h2 h2
    · exact le_refl _
    · obtain ⟨hs1, he1⟩ := h1
      have hb' : keywordBaseTier (strLower p ++ strLower suffix) ≠ EditComplexity.SIMPLE := by
        intro hcontra
        exact h2 ⟨hcontra, hesc he1⟩
      calc tierRank EditComplexity.MODERATE = 1 := rfl
        _ ≤ tierRank (keywordBaseTier (strLower p ++ strLower suffix)) :=
            one_le_tierRank_of_ne _ hb'
    · obtain ⟨hs2, -⟩ := h2
      have : keywordBaseTier (strLower p) = EditComplexity.SIMPLE := by
        apply tierRank_le_iff_simple
        have hb2 := hbase
        rw [hs2] at hb2
        simpa [tierRank] using hb2
      rw [this]
      simp [tierRank]
    · exact hbase
  · rw [performComplexityAnalysis_complexity_eq]
    split_ifs with h1
    · rw [h1.1]
      simp [tierRank]
    · exact le_refl _

/-- C5 counterexample: on identical original and edited content consisting
of a single unmatched opening brace, the structure rule fails its balance
check, so validateEdit reports structureIntact = false and the structure
rule contributes an issue, refuting the claim as stated. -/
theorem validateEdit_identical_counterexample :
    (validateEdit trivialOracle [obrace] [obrace] (str "x.txt")
          ValidationLevel.basic).structureIntact = false ∧
      (createStructureValidationRule.validator [obrace] [obrace]
          (str "x.txt")).issues ≠ [] := by
  have e1 : countChar [obrace] obrace = 1 := by decide
  have e2 : countChar [obrace] cbrace = 0 := by decide
  have hsr : (createStructureValidationRule.validator [obrace] [obrace]
        (str "x.txt")).passed = false ∧
      (createStructureValidationRule.validator [obrace] [obrace]
        (str "x.txt")).issues ≠ [] := by
    unfold createStructureValidationRule
    dsimp only
    rw [e1, e2]
    simp only [Nat.cast_one, Nat.cast_zero]
    have hc1 : decide ((1:ℚ) * (1/10) < |(1:ℚ) - 1|) = false := by norm_num
    have hc2 : decide ((0:ℚ) * (1/10) < |(0:ℚ) - 0|) = false := by norm_num
    have hc3 : decide ((1:ℚ) ≠ (0:ℚ)) = true := by norm_num
    have hc4 : decide (countChar [obrace] '(' ≠ countChar [obrace] ')') = false := by decide
    have hc5 : decide (countChar [obrace] '[' ≠ countChar [obrace] ']') = false := by decide
    rw [hc1, hc2, hc3, hc4, hc5]
    simp
  refine ⟨?_, hsr.2⟩
  unfold validateEdit
  dsimp only
  have hrules : getValidationRules trivialOracle ValidationLevel.basic (str "x.txt") =
      [createSyntaxValidationRule trivialOracle (strLower (extname (str "x.txt"))),
        createStructureValidationRule, createLengthValidationRule] := by
    unfold getValidationRules
    simp
  rw [hrules]
  simp only [List.map_cons, List.map_nil, List.any_cons, List.any_nil]
  have hn1 : decide ((createSyntaxValidationRule trivialOracle
      (strLower (extname (str "x.txt")))).name = str "structure") = false := by decide
  have hn3 : decide (createLengthValidationRule.name = str "structure") = false := by decide
  simp [hn1, hn3, hsr.1]

theorem length_rule_identical (c fp : Str) :
    ((createLengthValidationRule).validator c c fp).passed = true ∧
      ((createLengthValidationRule).validator c c fp).issues = [] := by
  unfold createLengthValidationRule
  dsimp only
  have hc1 : decide ((splitOnChar '\n' c).length * 2 <
      (((splitOnChar '\n' c).length : ℤ) - ((splitOnChar '\n' c).length : ℤ)).natAbs) = false := by
    simp
  have hc2 : decide ((c.length : ℚ) < (c.length : ℚ) * (1/10)) = false := by
    simp only [decide_eq_false_iff_not, not_lt]
    have h0 : (0:ℚ) ≤ (c.length : ℚ) := by positivity
    linarith
  rw [hc1, hc2]
  simp

theorem structure_rule_identical (c fp : Str)
    (hb : countChar c obrace = countChar c cbrace)
    (hp : countChar c '(' = countChar c ')')
    (hk : countChar c '[' = countChar c ']') :
    ((createStructureValidationRule).validator c c fp).passed = true ∧
      ((createStructureValidationRule).validator c c fp).issues = [] := by
  unfold createStructureValidationRule
  dsimp only
  have h1 : decide ((countChar c obrace : ℚ) * (1/10) <
      |(countChar c obrace : ℚ) - (countChar c obrace : ℚ)|) = false := by
    simp only [decide_eq_false_iff_not, sub_self, abs_zero, not_lt]
    positivity
  have h2 : decide ((countChar c cbrace : ℚ) * (1/10) <
      |(countChar c cbrace : ℚ) - (countChar c cbrace : ℚ)|) = false := by
    simp only [decide_eq_false_iff_not, sub_self, abs_zero, not_lt]
    positivity
  have h3 : decide ((countChar c obrace : ℚ) ≠ (countChar c cbrace : ℚ)) = false := by
    simp [hb]
  have h4 : decide (countChar c '(' ≠ countChar c ')') = false := by simp [hp]
  have h5 : decide (countChar c '[' ≠ countChar c ']') = false := by simp [hk]
  rw [h1, h2, h3, h4, h5]
  simp

theorem syntax_rule_identical (oracle : Str → Str → Except Str Unit)
    (ext c fp : Str) (hs : syntaxCheckOk oracle ext c = true) :
    ((createSyntaxValidationRule oracle ext).validator c c fp).passed = true ∧
      ((createSyntaxValidationRule oracle ext).validator c c fp).issues = [] := by
  unfold createSyntaxValidationRule
  unfold syntaxCheckOk at hs
  dsimp only
  by_cases hext : ext ∈ specialSyntaxExts
  · rw [if_pos hext] at hs ⊢
    cases ho : oracle ext c with
    | ok u =>
      simp [Bool.and_not_self]
    | error m =>
      rw [ho] at hs
      simp at hs
  · rw [if_neg hext] at hs ⊢
    have hne : ¬((strTrim c).length = 0) := by
      intro h
      rw [List.length_eq_zero] at h
      rw [h] at hs
      simp at hs
    rw [if_neg hne]
    dsimp only
    simp [Bool.and_not_self]

/-- C5 amended: on identical original and edited content, whenever the
braces, parentheses and brackets of the content are individually balanced
and the extension-specific syntax check accepts the content (which for any
extension outside the specially-validated set only requires a nonempty
trimmed content), validateEdit returns syntaxValid = true and
structureIntact = true, and the structure and length rules contribute no
entries to potentialIssues, at every validation level. -/
theorem validateEdit_identical_balanced (oracle : Str → Str → Except Str Unit)
    (c filePath : Str) (level : ValidationLevel)
    (hb : countChar c obrace = countChar c cbrace)
    (hp : countChar c '(' = countChar c ')')
    (hk : countChar c '[' = countChar c ']')
    (hs : syntaxCheckOk oracle (strLower (extname filePath)) c = true) :
    (validateEdit oracle c c filePath level).syntaxValid = true ∧
      (validateEdit oracle c c filePath level).structureIntact = true ∧
      ((createStructureValidationRule).validator c c filePath).issues = [] ∧
      ((createLengthValidationRule).validator c c filePath).issues = [] := by
  have hsy := syntax_rule_identical oracle (strLower (extname filePath)) c filePath hs
  have hst := structure_rule_identical c filePath hb hp hk
  refine ⟨?_, ?_, hst.2, (length_rule_identical c filePath).2⟩
  · unfold validateEdit
    dsimp only
    rw [List.any_eq_true]
    refine ⟨(createSyntaxValidationRule oracle (strLower (extname filePath)),
      (createSyntaxValidationRule oracle (strLower (extname filePath))).validator
        c c filePath), ?_, ?_⟩
    · rw [List.mem_map]
      refine ⟨createSyntaxValidationRule oracle (strLower (extname filePath)), ?_, rfl⟩
      unfold getValidationRules
      cases level <;> simp
    · simp only [Bool.and_eq_true, decide_eq_true_eq]
      exact ⟨rfl, hsy.1⟩
  · unfold validateEdit
    dsimp only
    rw [List.any_eq_true]
    refine ⟨(createStructureValidationRule,
      createStructureValidationRule.validator c c filePath), ?_, ?_⟩
    · rw [List.mem_map]
      refine ⟨createStructureValidationRule, ?_, rfl⟩
      unfold getValidationRules
      cases level <;> simp
    · simp only [Bool.and_eq_true, decide_eq_true_eq]
      exact ⟨rfl, hst.1⟩

theorem validateEdit_identical_balanced_witness :
    (validateEdit trivialOracle (str "abc") (str "abc") (str "x.txt")
        ValidationLevel.basic).syntaxValid = true :=
  (validateEdit_identical_balanced trivialOracle (str "abc") (str "x.txt")
      ValidationLevel.basic (by decide) (by decide) (by decide) (by decide)).1

theorem chainQ_drop {R : Str → Str → Prop} :
    ∀ (n : Nat) (l : List Str), List.Chain' R l → List.Chain' R (l.drop n)
  | 0, _, h => h
  | n + 1, [], _ => by simp
  | n + 1, a :: l, h => by
    rw [List.drop_succ_cons]
    exact chainQ_drop n l (List.Chain'.tail h)

theorem idxOf_lt_length (x : Str) : ∀ (path : List Str), x ∈ path →
    idxOf x path < path.length := by
  intro path
  induction path with
  | nil => intro h; simp at h
  | cons y l ih =>
    intro hmem
    unfold idxOf
    split
    · simp
    · next hne =>
      have hx : x ∈ l := by
        rcases List.mem_cons.mp hmem with h | h
        · exact absurd h.symm hne
        · exact h
      simpa using ih hx

theorem drop_idxOf_head (x : Str) : ∀ (path : List Str), x ∈ path →
    ∃ t, path.drop (idxOf x path) = x :: t := by
  intro path
  induction path with
  | nil => intro h; simp at h
  | cons y l ih =>
    intro hmem
    unfold idxOf
    split
    · next heq => exact ⟨l, by simp [heq]⟩
    · next hne =>
      have hx : x ∈ l := by
        rcases List.mem_cons.mp hmem with h | h
        · exact absurd h.symm hne
        · exact h
      simpa using ih hx

theorem mk_graphHasCycle (edges : List (Str × List Str)) (node : Str)
    (path : List Str) (hmem : node ∈ path)
    (hchain : List.Chain' (edgeRel edges) (path ++ [node])) :
    graphHasCycle edges := by
  have hlt : idxOf node path < path.length := idxOf_lt_length node path hmem
  obtain ⟨t, ht⟩ := drop_idxOf_head node path hmem
  refine ⟨path.drop (idxOf node path) ++ [node], ?_, ?_, ?_⟩
  · rw [ht]
    simp
  · rw [ht]
    show ((node :: t) ++ [node]).head? = ((node :: t) ++ [node]).getLast?
    rw [List.getLast?_concat]
    rfl
  · have heq : path.drop (idxOf node path) ++ [node] =
        (path ++ [node]).drop (idxOf node path) := by
      rw [List.drop_append_of_le_length (le_of_lt hlt)]
    rw [heq]
    exact chainQ_drop _ _ hchain

theorem dfsStep_cycles_acyclic (edges : List (Str × List Str))
    (hnc : ¬ graphHasCycle edges) :
    ∀ (fuel : Nat) (node : Str) (path : List Str) (s : DfsState),
      List.Chain' (edgeRel edges) (path ++ [node]) →
      (dfsStep edges fuel node path s).cycles = s.cycles := by
  intro fuel
  induction fuel with
  | zero => intro node path s _; rfl
  | succ fuel ih =>
    intro node path s hchain
    rw [dfsStep]
    split
    · split
      · next hpath => exact absurd (mk_graphHasCycle edges node path hpath hchain) hnc
      · rfl
    · split
      · rfl
      · dsimp only
        have hfold : ∀ (l : List Str), (∀ d ∈ l, d ∈ edgesGet edges node) →
            ∀ t : DfsState,
              ((l.foldl (fun acc dep => dfsStep edges fuel dep (path ++ [node]) acc) t)).cycles =
                t.cycles := by
          intro l
          induction l with
          | nil => intro _ t; rfl
          | cons d ds ihd =>
            intro hsub t
            rw [List.foldl_cons]
            rw [ihd (fun x hx => hsub x (List.mem_cons_of_mem _ hx))]
            apply ih
            rw [List.chain'_append]
            refine ⟨hchain, List.chain'_singleton _, ?_⟩
            intro x hx y hy
            simp only [List.getLast?_concat, Option.mem_def, Option.some_inj] at hx
            simp only [List.head?_cons, Option.mem_def, Option.some_inj] at hy
            subst hx
            subst hy
            exact hsub d (List.mem_cons_self d ds)
        rw [hfold (edgesGet edges node) (fun x hx => hx) _]

theorem findCircularDependencies_acyclic (g : DependencyGraph)
    (hnc : ¬ graphHasCycle g.edges) : findCircularDependencies g = [] := by
  unfold findCircularDependencies
  have hfold : ∀ (keys : List Str) (t : DfsState), t.cycles = [] →
      ((keys.foldl
        (fun s node => if node ∈ s.visited then s else dfsStep g.edges (dfsFuel g) node [] s)
        t)).cycles = [] := by
    intro keys
    induction keys with
    | nil => intro t ht; exact ht
    | cons k ks ihk =>
      intro t ht
      rw [List.foldl_cons]
      apply ihk
      split
      · exact ht
      · rw [dfsStep_cycles_acyclic g.edges hnc (dfsFuel g) k [] t (by simp)]
        exact ht
  exact hfold _ _ rfl

theorem nodup_subset_length_le (l u : List Str) (hnd : l.Nodup)
    (hsub : ∀ x ∈ l, x ∈ u) : l.length ≤ u.length := by
  have h1 : l.toFinset.card = l.length := List.toFinset_card_of_nodup hnd
  have h2 : l.toFinset ⊆ u.toFinset := by
    intro x hx
    rw [List.mem_toFinset] at hx ⊢
    exact hsub x hx
  calc l.length = l.toFinset.card := h1.symm
    _ ≤ u.toFinset.card := Finset.card_le_card h2
    _ ≤ u.length := List.toFinset_card_le u

theorem dfs_fold (edges : List (Str × List Str)) (A B : Str) (U : List Str)
    (F0 fuel : Nat) (pathQ : List Str)
    (ih : ∀ (node : Str) (path : List Str) (s : DfsState), node ∈ U →
      DfsInv U F0 fuel path s → DfsConcl edges A B U fuel node path s) :
    ∀ (l : List Str), (∀ d ∈ l, d ∈ U) → ∀ s : DfsState, DfsInv U F0 fuel pathQ s →
      ((l.foldl (fun acc dep => dfsStep edges fuel dep pathQ acc) s).recStack = s.recStack ∧
        (∀ x ∈ s.visited,
          x ∈ (l.foldl (fun acc dep => dfsStep edges fuel dep pathQ acc) s).visited) ∧
        s.visited.length ≤
          (l.foldl (fun acc dep => dfsStep edges fuel dep pathQ acc) s).visited.length ∧
        (l.foldl (fun acc dep => dfsStep edges fuel dep pathQ acc) s).visited.Nodup ∧
        (∀ x ∈ (l.foldl (fun acc dep => dfsStep edges fuel dep pathQ acc) s).visited, x ∈ U) ∧
        (s.cycles ≠ [] →
          (l.foldl (fun acc dep => dfsStep edges fuel dep pathQ acc) s).cycles ≠ []) ∧
        (DfsG A B s → DfsG A B (l.foldl (fun acc dep => dfsStep edges fuel dep pathQ acc) s)) ∧
        (DfsG A B s → ∀ d ∈ l, (d = A ∨ d = B) →
          (l.foldl (fun acc dep => dfsStep edges fuel dep pathQ acc) s).cycles ≠ [])) := by
  intro l
  induction l with
  | nil =>
    intro _ s hinv
    refine ⟨rfl, fun x hx => hx, le_refl _, hinv.1, hinv.2.1, id, id, ?_⟩
    intro _ d hd
    simp at hd
  | cons d ds ihl =>
    intro hsub s hinv
    have hdU : d ∈ U := hsub d (List.mem_cons_self d ds)
    have hc := ih d pathQ s hdU hinv
    obtain ⟨c1, c2, c3, c4, c5, c6, c7, c9, c8⟩ := hc
    obtain ⟨hnd, hU, hrs, hrv, hf⟩ := hinv
    have hinv2 : DfsInv U F0 fuel pathQ (dfsStep edges fuel d pathQ s) := by
      refine ⟨c4, c5, ?_, ?_, ?_⟩
      · intro x; rw [c1]; exact hrs x
      · intro x hx; rw [c1] at hx; exact c2 x (hrv x hx)
      · calc F0 ≤ fuel + s.visited.length := hf
          _ ≤ fuel + (dfsStep edges fuel d pathQ s).visited.length := by omega
    have hrest := ihl (fun x hx => hsub x (List.mem_cons_of_mem _ hx))
      (dfsStep edges fuel d pathQ s) hinv2
    obtain ⟨r1, r2, r3, r4, r5, r6, r7, r8⟩ := hrest
    rw [List.foldl_cons]
    refine ⟨by rw [r1, c1], ?_, ?_, r4, r5, ?_, ?_, ?_⟩
    · intro x hx; exact r2 x (c2 x hx)
    · exact le_trans c3 r3
    · intro h; exact r6 (c6 h)
    · intro hG; exact r7 (c7 hG)
    · intro hG d0 hd0 hABd0
      rcases List.mem_cons.mp hd0 with rfl | hmem
      · apply r6
        rcases hG with hne | hGg
        · exact c6 hne
        · by_cases hdvis : d0 ∈ s.visited
          · have hstk : d0 ∈ s.recStack := by
              rcases hABd0 with rfl | rfl
              · exact hGg.1 hdvis
              · exact hGg.2 hdvis
            exact c9 hstk
          · exact c8 hABd0 hdvis (Or.inr hGg)
      · exact r8 (c7 hG) d0 hmem hABd0

theorem dfs_main (edges : List (Str × List Str)) (A B : Str) (U : List Str)
    (F0 : Nat) (hAB : B ∈ edgesGet edges A) (hBA : A ∈ edgesGet edges B)
    (hclosed : ∀ (k x : Str), x ∈ edgesGet edges k → x ∈ U)
    (hF0 : U.length + 1 ≤ F0) :
    ∀ (fuel : Nat) (node : Str) (path : List Str) (s : DfsState), node ∈ U →
      DfsInv U F0 fuel path s → DfsConcl edges A B U fuel node path s := by
  intro fuel
  induction fuel with
  | zero =>
    intro node path s _ hinv
    obtain ⟨hnd, hU, hrs, hrv, hf⟩ := hinv
    have hlen := nodup_subset_length_le s.visited U hnd hU
    refine ⟨rfl, fun x hx => hx, le_refl _, hnd, hU, id, id, ?_, ?_⟩
    · intro _; exfalso; omega
    · intro _ _ _; exfalso; omega
  | succ fuel ih =>
    intro node path s hnode hinv
    obtain ⟨hnd, hU, hrs, hrv, hf⟩ := hinv
    by_cases hstack : node ∈ s.recStack
    · have hpath : node ∈ path := (hrs node).mp hstack
      have hstep : dfsStep edges (fuel + 1) node path s =
          { s with cycles := s.cycles ++ [path.drop (idxOf node path) ++ [node]] } := by
        rw [dfsStep, if_pos hstack, if_pos hpath]
      unfold DfsConcl
      rw [hstep]
      refine ⟨rfl, fun x hx => hx, le_refl _, hnd, hU, ?_, ?_, ?_, ?_⟩
      · intro _; simp
      · intro _; exact Or.inl (by simp)
      · intro _; simp
      · intro _ _ _; simp
    · by_cases hvis : node ∈ s.visited
      · have hstep : dfsStep edges (fuel + 1) node path s = s := by
          rw [dfsStep, if_neg hstack, if_pos hvis]
        unfold DfsConcl
        rw [hstep]
        refine ⟨rfl, fun x hx => hx, le_refl _, hnd, hU, id, id, ?_, ?_⟩
        · intro h; exact absurd h hstack
        · intro _ h; exact absurd hvis h
      · have hinv1 : DfsInv U F0 fuel (path ++ [node])
            { s with visited := node :: s.visited, recStack := node :: s.recStack } := by
          refine ⟨?_, ?_, ?_, ?_, ?_⟩
          · exact List.nodup_cons.mpr ⟨hvis, hnd⟩
          · intro x hx
            rcases List.mem_cons.mp hx with rfl | hx
            · exact hnode
            · exact hU x hx
          · intro x
            constructor
            · intro hx
              rcases List.mem_cons.mp hx with rfl | hx
              · exact List.mem_append.mpr (Or.inr (List.mem_singleton.mpr rfl))
              · exact List.mem_append.mpr (Or.inl ((hrs x).mp hx))
            · intro hx
              rcases List.mem_append.mp hx with hx | hx
              · exact List.mem_cons_of_mem _ ((hrs x).mpr hx)
              · rw [List.mem_singleton] at hx
                subst hx
                exact List.mem_cons_self _ _
          · intro x hx
            rcases List.mem_cons.mp hx with rfl | hx
            · exact List.mem_cons_self _ _
            · exact List.mem_cons_of_mem _ (hrv x hx)
          · simp only [List.length_cons]
            omega
        have hfold := dfs_fold edges A B U F0 fuel (path ++ [node]) ih
          (edgesGet edges node) (fun d hd => hclosed node d hd)
          { s with visited := node :: s.visited, recStack := node :: s.recStack } hinv1
        unfold DfsConcl
        rw [dfsStep, if_neg hstack, if_neg hvis]
        dsimp only
        set s2 := (edgesGet edges node).foldl
          (fun acc dep => dfsStep edges fuel dep (path ++ [node]) acc)
          { s with visited := node :: s.visited, recStack := node :: s.recStack } with hs2def
        obtain ⟨f1, f2, f3, f4, f5, f6, f7, f8⟩ := hfold
        have hs2stack : s2.recStack = node :: s.recStack := f1
        have hG1 : DfsG A B s → DfsG A B
            { s with visited := node :: s.visited, recStack := node :: s.recStack } := by
          intro hG
          rcases hG with hne | ⟨hA, hB⟩
          · exact Or.inl hne
          · refine Or.inr ⟨?_, ?_⟩
            · intro hAv
              rcases List.mem_cons.mp hAv with rfl | hAv
              · exact List.mem_cons_self _ _
              · exact List.mem_cons_of_mem _ (hA hAv)
            · intro hBv
              rcases List.mem_cons.mp hBv with rfl | hBv
              · exact List.mem_cons_self _ _
              · exact List.mem_cons_of_mem _ (hB hBv)
        have hkick : (node = A ∨ node = B) → DfsG A B s → s2.cycles ≠ [] := by
          intro hor hG
          rcases hor with rfl | rfl
          · exact f8 (hG1 hG) B hAB (Or.inr rfl)
          · exact f8 (hG1 hG) A hBA (Or.inl rfl)
        refine ⟨?_, ?_, ?_, f4, f5, f6, ?_, ?_, ?_⟩
        · show s2.recStack.erase node = s.recStack
          rw [hs2stack, List.erase_cons_head]
        · intro x hx
          exact f2 x (List.mem_cons_of_mem _ hx)
        · calc s.visited.length ≤ (node :: s.visited).length := by simp
            _ ≤ s2.visited.length := f3
        · intro hG
          by_cases hc2 : s2.cycles = []
          · rcases hG with hne | hpair
            · exact absurd hc2 (f6 hne)
            · refine Or.inr ⟨?_, ?_⟩
              · intro hAv
                have hG2 := f7 (hG1 (Or.inr hpair))
                rcases hG2 with hne2 | ⟨hA2, hB2⟩
                · exact absurd hne2 (not_not_intro hc2)
                · have hstk2 : A ∈ s2.recStack := hA2 hAv
                  rw [hs2stack] at hstk2
                  rcases List.mem_cons.mp hstk2 with heq | hstk2
                  · exact absurd hc2 (hkick (Or.inl heq.symm) (Or.inr hpair))
                  · show A ∈ s2.recStack.erase node
                    rw [hs2stack, List.erase_cons_head]
                    exact hstk2
              · intro hBv
                have hG2 := f7 (hG1 (Or.inr hpair))
                rcases hG2 with hne2 | ⟨hA2, hB2⟩
                · exact absurd hne2 (not_not_intro hc2)
                · have hstk2 : B ∈ s2.recStack := hB2 hBv
                  rw [hs2stack] at hstk2
                  rcases List.mem_cons.mp hstk2 with heq | hstk2
                  · exact absurd hc2 (hkick (Or.inr heq.symm) (Or.inr hpair))
                  · show B ∈ s2.recStack.erase node
                    rw [hs2stack, List.erase_cons_head]
                    exact hstk2
          · exact Or.inl hc2
        · intro h
          exact absurd h hstack
        · intro hor _ hG
          exact hkick hor hG

theorem edgesGet_subset_universe (g : DependencyGraph) (k x : Str)
    (hx : x ∈ edgesGet g.edges k) : x ∈ dfsUniverse g := by
  unfold edgesGet at hx
  rcases hfind : g.edges.find? (fun e => decide (e.1 = k)) with _ | e
  · rw [hfind] at hx
    simp at hx
  · rw [hfind] at hx
    have hmem : e ∈ g.edges := List.mem_of_find?_eq_some hfind
    unfold dfsUniverse
    refine List.mem_append.mpr (Or.inr ?_)
    rw [List.mem_flatten]
    exact ⟨e.2, List.mem_map.mpr ⟨e, hmem, rfl⟩, hx⟩

theorem outer_fold_two_cycle (g : DependencyGraph) (A B : Str)
    (hAB : B ∈ edgesGet g.edges A) (hBA : A ∈ edgesGet g.edges B) :
    ∀ (keys : List Str), (∀ k ∈ keys, k ∈ dfsUniverse g) →
      ∀ t : DfsState, t.visited.Nodup → (∀ x ∈ t.visited, x ∈ dfsUniverse g) →
        t.recStack = [] → DfsG A B t →
        ((A ∈ keys →
            (keys.foldl
              (fun s node => if node ∈ s.visited then s
                else dfsStep g.edges (dfsFuel g) node [] s) t).cycles ≠ []) ∧
          (t.cycles ≠ [] →
            (keys.foldl
              (fun s node => if node ∈ s.visited then s
                else dfsStep g.edges (dfsFuel g) node [] s) t).cycles ≠ [])) := by
  have hclosed : ∀ (k x : Str), x ∈ edgesGet g.edges k → x ∈ dfsUniverse g :=
    fun k x hx => edgesGet_subset_universe g k x hx
  have hF0 : (dfsUniverse g).length + 1 ≤ dfsFuel g := by
    unfold dfsFuel
    omega
  intro keys
  induction keys with
  | nil =>
    intro _ t _ _ _ _
    refine ⟨?_, id⟩
    intro h
    simp at h
  | cons k ks ih =>
    intro hkeys t hnd hU hrs hG
    have hkU : k ∈ dfsUniverse g := hkeys k (List.mem_cons_self k ks)
    rw [List.foldl_cons]
    by_cases hkv : k ∈ t.visited
    · rw [if_pos hkv]
      have hrec := ih (fun x hx => hkeys x (List.mem_cons_of_mem _ hx)) t hnd hU hrs hG
      refine ⟨?_, hrec.2⟩
      intro hAmem
      rcases List.mem_cons.mp hAmem with rfl | hAmem
      · -- A already visited: with G this forces a recorded cycle
        rcases hG with hne | hpair
        · exact hrec.2 hne
        · have : A ∈ t.recStack := hpair.1 hkv
          rw [hrs] at this
          simp at this
      · exact hrec.1 hAmem
    · rw [if_neg hkv]
      have hinv : DfsInv (dfsUniverse g) (dfsFuel g) (dfsFuel g) [] t := by
        refine ⟨hnd, hU, ?_, ?_, ?_⟩
        · intro x
          rw [hrs]
        · intro x hx
          rw [hrs] at hx
          simp at hx
        · omega
      have hc := dfs_main g.edges A B (dfsUniverse g) (dfsFuel g) hAB hBA hclosed hF0
        (dfsFuel g) k [] t hkU hinv
      obtain ⟨c1, c2, c3, c4, c5, c6, c7, c9, c8⟩ := hc
      have hrs2 : (dfsStep g.edges (dfsFuel g) k [] t).recStack = [] := by
        rw [c1, hrs]
      have hU2 : ∀ x ∈ (dfsStep g.edges (dfsFuel g) k [] t).visited, x ∈ dfsUniverse g := c5
      have hrec := ih (fun x hx => hkeys x (List.mem_cons_of_mem _ hx))
        (dfsStep g.edges (dfsFuel g) k [] t) c4 hU2 hrs2 (c7 hG)
      refine ⟨?_, fun h => hrec.2 (c6 h)⟩
      intro hAmem
      rcases List.mem_cons.mp hAmem with rfl | hAmem
      · rcases hG with hne | hpair
        · exact hrec.2 (c6 hne)
        · exact hrec.2 (c8 (Or.inl rfl) hkv (Or.inr hpair))
      · exact hrec.1 hAmem

theorem emptyEdges_acyclic : ¬ graphHasCycle ([] : List (Str × List Str)) := by
  rintro ⟨c, hlen, -, hchain⟩
  match c with
  | [] => simp at hlen
  | [x] => simp at hlen
  | x :: y :: t =>
    have h := (List.chain'_cons.mp hchain).1
    unfold edgeRel edgesGet at h
    simp at h

/-- C7: the cycle detector returns a non-empty list for every graph whose
node keys contain a vertex A with a two-node cycle A to B and B to A in the
edges map, and returns the empty list for every acyclic graph. -/
theorem findCircularDependencies_two_cycle_and_dag :
    (∀ (g : DependencyGraph) (A B : Str), A ∈ g.nodes.map Prod.fst →
        B ∈ edgesGet g.edges A → A ∈ edgesGet g.edges B →
        findCircularDependencies g ≠ []) ∧
      (∀ g : DependencyGraph, ¬ graphHasCycle g.edges →
        findCircularDependencies g = []) := by
  constructor
  · intro g A B hA hAB hBA
    unfold findCircularDependencies
    have hkeys : ∀ k ∈ g.nodes.map Prod.fst, k ∈ dfsUniverse g := by
      intro k hk
      exact List.mem_append.mpr (Or.inl hk)
    have h := outer_fold_two_cycle g A B hAB hBA (g.nodes.map Prod.fst) hkeys
      { visited := [], recStack := [], cycles := [] } List.nodup_nil
      (by intro x hx; simp at hx) rfl
      (Or.inr ⟨fun h => by simp at h, fun h => by simp at h⟩)
    exact h.1 hA
  · exact findCircularDependencies_acyclic

theorem findCircularDependencies_two_cycle_and_dag_witness :
    (findCircularDependencies
        { nodes :=
            [(str "a", ⟨str "a", [], [], 0, 0⟩),
             (str "b", ⟨str "b", [], [], 0, 0⟩)],
          edges := [(str "a", [str "b"]), (str "b", [str "a"])],
          weights := [] } ≠ []) ∧
      findCircularDependencies { nodes := [], edges := [], weights := [] } = [] :=
  ⟨findCircularDependencies_two_cycle_and_dag.1 _ (str "a") (str "b")
      (by decide) (by decide) (by decide),
    findCircularDependencies_two_cycle_and_dag.2 _ emptyEdges_acyclic⟩
